import Mathlib

/-! Shallow embedding of the pipevec tensor engine (pipevec/pipevec-tensor.c).

Float storage is modelled as a total function from cell offsets to an abstract
element type, together with a bump allocator standing in for posix_memalign;
the element type carries the arithmetic structure (Zero/Add/Mul/Div) that the
C code uses on 32-bit floats.  GArray shape descriptors are modelled as
List Nat and every access to a stored dimension is taken value-consistently
(the C source reads some shape cells through a float-typed view of the same
bytes; the embedding treats each such access as denoting the stored dimension
value, as the specification's design notes direct).  Reaching C undefined
behaviour - indexing an empty shape at position len-1, dividing by a zero
dimension, dereferencing a NULL buffer, or the out-of-bounds terminator write
in format_size_t_array for arrays shorter than two - is modelled by the
distinguished results CResult.ub and Option.none. -/

namespace Pipevec

def Mem (α : Type) := Nat → α

def store {α : Type} (m : Mem α) (i : Nat) (v : α) : Mem α :=
  fun k => if k = i then v else m k

structure Heap (α : Type) where
  mem : Mem α
  next : Nat

inductive PipevecError where
  | INTERNAL
  | BAD_SHAPE
  | DIMENSION_MISMATCH
deriving DecidableEq, Repr

inductive CResult (A : Type) where
  | ok : A → CResult A
  | error : PipevecError → String → CResult A
  | ub : CResult A

/-- The private state of a PipevecTensor: the buffer base address (none models
a NULL array pointer), the logical shape and the padded shape. -/
structure PipevecTensorPriv where
  array : Option Nat
  shape : List Nat
  padded_shape : List Nat
deriving DecidableEq, Repr

/-- pipevec_tensor_init: a fresh tensor has empty shape arrays and a NULL buffer. -/
def pipevec_tensor_init : PipevecTensorPriv :=
  { array := none, shape := [], padded_shape := [] }

/-- array_size_t_product: product of all the entries of a size_t array. -/
def array_size_t_product (data : List Nat) : Nat :=
  data.foldl (fun product d => product * d) 1

/-- apply_padding: round original up to the next multiple of vector_size. -/
def apply_padding (original vector_size : Nat) : Nat :=
  original + ((vector_size - original % vector_size) % vector_size)

def empty_str : String := ""

def lbracket_str : String := "["

def rbracket_str : String := "]"

def comma_sep : String := ", "

/-- One strv cell written by the loop in format_size_t_array: the printf
prints the loop index i itself (not data[i]), followed by a separator
except on the last entry. -/
def format_entry (i len : Nat) : String :=
  toString i ++ if i ≠ len - 1 then comma_sep else empty_str

/-- g_strjoinv on a NULL-terminated strv: concatenate entries up to the first
NULL pointer. -/
def strv_join : List (Option String) → String
  | [] => empty_str
  | none :: _ => empty_str
  | some s :: rest => s ++ strv_join rest

/-- format_size_t_array: builds a strv of len+3 cells (g_new0, so all NULL),
writes the bracket, the formatted entries, then overwrites cell len-2 with a
closing bracket and cell len-1 with NULL, and joins.  For len < 2 the write at
index len-2 underflows the allocation (heap corruption), modelled as none. -/
def format_size_t_array (data : List Nat) : Option String :=
  let len := data.length
  if len < 2 then
    none
  else
    let strv : Array (Option String) := Array.mkArray (len + 3) none
    let strv := strv.set! 0 (some lbracket_str)
    let strv := (List.range len).foldl
      (fun a i => a.set! (i + 1) (some (format_entry i len))) strv
    let strv := strv.set! (len - 2) (some rbracket_str)
    let strv := strv.set! (len - 1) none
    some (strv_join strv.toList)

def msg_shape : String := "Shape "

def msg_has_product : String := " has product "

def msg_no_match_len : String := " which does not match array length "

def msg_ui_suffix : String := "i"

/-- The g_set_error message of pipevec_tensor_set_data: the %ui directive
prints shape->len (the rank) followed by a literal i character. -/
def set_data_msg (shape : List Nat) : String :=
  msg_shape ++ (format_size_t_array shape).getD empty_str ++ msg_has_product ++
    toString (array_size_t_product shape) ++ msg_no_match_len ++
    toString shape.length ++ msg_ui_suffix

/-- pipevec_tensor_alloc_shape: computes the padded element count from the
shape, allocates sizeof(float8_t) * count bytes (eight floats per unit) at the
allocator frontier, and replaces the shape descriptors; the padded shape is the
shape with its last entry rounded up to a multiple of 8.  An empty shape makes
the C index shape->data[len-1] out of bounds and a zero last dimension makes it
divide by zero, both undefined: modelled as none. -/
def pipevec_tensor_alloc_shape {α : Type} (h : Heap α) (shape : List Nat) :
    Option (Heap α × PipevecTensorPriv) :=
  match shape.getLast? with
  | none => none
  | some last =>
    if last = 0 then none
    else
      let shape_product := array_size_t_product shape
      let padded_count := shape_product / last * apply_padding last 8
      some ({ mem := h.mem, next := h.next + 8 * padded_count },
            { array := some h.next,
              shape := shape,
              padded_shape := shape.dropLast ++ [apply_padding last 8] })

/-- pipevec_tensor_set_data: checks the shape product against the contents
length, reallocates, then copies each logical row into the padded row and
zero-fills the padding cells.  On mismatch it fails with BAD_SHAPE before
allocating anything. -/
def pipevec_tensor_set_data {α : Type} [Zero α] (h : Heap α)
    (contents : List α) (shape : List Nat) :
    CResult (Heap α × PipevecTensorPriv) :=
  let shape_product := array_size_t_product shape
  if shape_product ≠ contents.length then
    .error .BAD_SHAPE (set_data_msg shape)
  else
    match pipevec_tensor_alloc_shape h shape with
    | none => .ub
    | some (h1, t1) =>
      match t1.array, shape.getLast?, t1.padded_shape.getLast? with
      | some base, some inner_shape_no_padding, some inner_shape_padding =>
        let leading_shape := shape_product / inner_shape_no_padding
        let mem1 := (List.range leading_shape).foldl (fun m i =>
          let m := (List.range inner_shape_no_padding).foldl (fun m j =>
            store m (base + i * inner_shape_padding + j)
              (contents.getD (i * inner_shape_no_padding + j) 0)) m
          (List.range' inner_shape_no_padding
              (inner_shape_padding - inner_shape_no_padding)).foldl (fun m j =>
            store m (base + i * inner_shape_padding + j) (0 : α)) m) h1.mem
        .ok ({ mem := mem1, next := h1.next }, t1)
      | _, _, _ => .ub

/-- pipevec_tensor_get_data: reads the logical rows back out of the padded
buffer, recomputing the row padding from the stored shape.  Reading an
unpopulated tensor dereferences a NULL buffer or indexes an empty shape,
modelled as none. -/
def pipevec_tensor_get_data {α : Type} (h : Heap α) (t : PipevecTensorPriv) :
    Option (List α) :=
  match t.array, t.shape.getLast? with
  | some base, some inner_shape_no_padding =>
    if inner_shape_no_padding = 0 then none
    else
      let return_value_len := array_size_t_product t.shape
      let leading_shape := return_value_len / inner_shape_no_padding
      let inner_shape_padding := apply_padding inner_shape_no_padding 8
      some ((List.range leading_shape).flatMap (fun i =>
        (List.range inner_shape_no_padding).map (fun j =>
          h.mem (base + i * inner_shape_padding + j))))
  | _, _ => none

/-- pipevec_tensor_reshape: fetch the data, then set it again under the new
shape. -/
def pipevec_tensor_reshape {α : Type} [Zero α] (h : Heap α)
    (t : PipevecTensorPriv) (shape : List Nat) :
    CResult (Heap α × PipevecTensorPriv) :=
  match pipevec_tensor_get_data h t with
  | none => .ub
  | some data => pipevec_tensor_set_data h data shape

/-- memcpy of n float cells from src to dst. -/
def memcpy {α : Type} (m : Mem α) (dst src n : Nat) : Mem α :=
  (List.range n).foldl (fun m k => store m (dst + k) (m (src + k))) m

/-- pipevec_tensor_set_data_aligned_padded: reallocate for the shape, then
memcpy already padded data into the fresh buffer. -/
def pipevec_tensor_set_data_aligned_padded {α : Type} (h : Heap α)
    (shape : List Nat) (src_base padded_data_length : Nat) :
    CResult (Heap α × PipevecTensorPriv) :=
  match pipevec_tensor_alloc_shape h shape with
  | none => .ub
  | some (h1, t1) =>
    match t1.array with
    | some base =>
      .ok ({ mem := memcpy h1.mem base src_base padded_data_length,
             next := h1.next }, t1)
    | none => .ub

/-- pipevec_tensor_copy: a new tensor with the same shape whose padded buffer
is copied verbatim from the source.  Copying an unpopulated tensor memcpys
from a NULL pointer, modelled as ub. -/
def pipevec_tensor_copy {α : Type} (h : Heap α) (t : PipevecTensorPriv) :
    CResult (Heap α × PipevecTensorPriv) :=
  match t.array with
  | none => .ub
  | some src_base =>
    pipevec_tensor_set_data_aligned_padded h t.shape src_base
      (array_size_t_product t.padded_shape)

/-- The loop body of set_location: counting down the dimensions, divide the
linear index by the running product of the dimensions already passed and
reduce modulo the current dimension. -/
def set_location_go : List Nat → Nat → Nat → List Nat
  | [], _, _ => []
  | s :: rest, i, product => set_location_go rest i (product * s) ++ [i / product % s]

/-- set_location: the logical multi-index of linear position i under shape,
computed from the last dimension to the first. -/
def set_location (shape : List Nat) (i : Nat) : List Nat :=
  set_location_go shape.reverse i 1

/-- pipevec_tensor_map: copy the source, then overwrite every logical element
with func applied to the current value and the location of its linear index;
padding cells are not visited. -/
def pipevec_tensor_map {α : Type} (h : Heap α) (src : PipevecTensorPriv)
    (func : α → List Nat → α) : CResult (Heap α × PipevecTensorPriv) :=
  match pipevec_tensor_copy h src with
  | .ub => .ub
  | .error e m => .error e m
  | .ok (h1, dst) =>
    match dst.array, dst.shape.getLast?, dst.padded_shape.getLast? with
    | some base, some inner_shape, some inner_shape_padding =>
      if inner_shape = 0 then .ub
      else
        let leading_shape := array_size_t_product dst.shape / inner_shape
        let mem1 := (List.range leading_shape).foldl (fun m i =>
          (List.range inner_shape).foldl (fun m j =>
            store m (base + i * inner_shape_padding + j)
              (func (m (base + i * inner_shape_padding + j))
                (set_location dst.shape (i * inner_shape + j)))) m) h1.mem
        .ok ({ mem := mem1, next := h1.next }, dst)
    | _, _, _ => .ub

/-- shape_subset_equal: equal lengths, length at least offset_from_end, and
equal entries outside the trailing offset_from_end positions. -/
def shape_subset_equal (lhs rhs : List Nat) (offset_from_end : Nat) : Bool :=
  if lhs.length ≠ rhs.length then false
  else if lhs.length < offset_from_end then false
  else (List.range (lhs.length - offset_from_end)).all
    (fun i => lhs.getD i 0 = rhs.getD i 0)

def shapes_equal (lhs rhs : List Nat) : Bool :=
  shape_subset_equal lhs rhs 0

def msg_expected_shapes : String := "Expected shapes "

def msg_and : String := " and "

def msg_to_be_equal : String := " to be equal"

/-- The g_set_error message of check_shapes_elementwise. -/
def check_shapes_msg (l r : List Nat) : String :=
  msg_expected_shapes ++ (format_size_t_array l).getD empty_str ++ msg_and ++
    (format_size_t_array r).getD empty_str ++ msg_to_be_equal

/-- pipevec_tensor_do_elementwise_op: require equal shapes, copy the lhs, and
overwrite every logical cell of the copy with func of the lhs and rhs cells at
the identical padded offset. -/
def pipevec_tensor_do_elementwise_op {α : Type} (h : Heap α)
    (lhs rhs : PipevecTensorPriv) (func : α → α → α) :
    CResult (Heap α × PipevecTensorPriv) :=
  if ¬ shapes_equal lhs.shape rhs.shape then
    .error .BAD_SHAPE (check_shapes_msg lhs.shape rhs.shape)
  else
    match pipevec_tensor_copy h lhs with
    | .ub => .ub
    | .error e m => .error e m
    | .ok (h1, dst) =>
      match dst.array, lhs.array, rhs.array,
          lhs.shape.getLast?, lhs.padded_shape.getLast? with
      | some base, some lb, some rb, some inner_shape, some inner_shape_padding =>
        if inner_shape = 0 then .ub
        else
          let leading_shape := array_size_t_product lhs.shape / inner_shape
          let mem1 := (List.range leading_shape).foldl (fun m i =>
            (List.range inner_shape).foldl (fun m j =>
              store m (base + i * inner_shape_padding + j)
                (func (m (lb + (i * inner_shape_padding + j)))
                  (m (rb + (i * inner_shape_padding + j))))) m) h1.mem
          .ok ({ mem := mem1, next := h1.next }, dst)
      | _, _, _, _, _ => .ub

/-- pipevec_tensor_do_scalar_op: copy the lhs and overwrite every logical cell
with func of the lhs cell and the scalar; no shape check. -/
def pipevec_tensor_do_scalar_op {α : Type} (h : Heap α)
    (lhs : PipevecTensorPriv) (rhs : α) (func : α → α → α) :
    CResult (Heap α × PipevecTensorPriv) :=
  match pipevec_tensor_copy h lhs with
  | .ub => .ub
  | .error e m => .error e m
  | .ok (h1, dst) =>
    match dst.array, lhs.array, lhs.shape.getLast?, lhs.padded_shape.getLast? with
    | some base, some lb, some inner_shape, some inner_shape_padding =>
      if inner_shape = 0 then .ub
      else
        let leading_shape := array_size_t_product lhs.shape / inner_shape
        let mem1 := (List.range leading_shape).foldl (fun m i =>
          (List.range inner_shape).foldl (fun m j =>
            store m (base + i * inner_shape_padding + j)
              (func (m (lb + (i * inner_shape_padding + j))) rhs)) m) h1.mem
        .ok ({ mem := mem1, next := h1.next }, dst)
    | _, _, _, _ => .ub

/-- The element function add of the source: lhs + rhs. -/
def add {α : Type} [Add α] (lhs rhs : α) : α := lhs + rhs

/-- The element function sub of the source: it computes lhs + rhs (the source
literally returns the sum, not the difference). -/
def sub {α : Type} [Add α] (lhs rhs : α) : α := lhs + rhs

/-- The element function mul of the source: lhs * rhs. -/
def mul {α : Type} [Mul α] (lhs rhs : α) : α := lhs * rhs

/-- The element function divide of the source: lhs / rhs. -/
def divide {α : Type} [Div α] (lhs rhs : α) : α := lhs / rhs

def pipevec_tensor_add_tensor {α : Type} [Add α] (h : Heap α)
    (lhs rhs : PipevecTensorPriv) : CResult (Heap α × PipevecTensorPriv) :=
  pipevec_tensor_do_elementwise_op h lhs rhs add

def pipevec_tensor_add_scalar {α : Type} [Add α] (h : Heap α)
    (lhs : PipevecTensorPriv) (rhs : α) : CResult (Heap α × PipevecTensorPriv) :=
  pipevec_tensor_do_scalar_op h lhs rhs add

def pipevec_tensor_sub_tensor {α : Type} [Add α] (h : Heap α)
    (lhs rhs : PipevecTensorPriv) : CResult (Heap α × PipevecTensorPriv) :=
  pipevec_tensor_do_elementwise_op h lhs rhs sub

def pipevec_tensor_sub_scalar {α : Type} [Add α] (h : Heap α)
    (lhs : PipevecTensorPriv) (rhs : α) : CResult (Heap α × PipevecTensorPriv) :=
  pipevec_tensor_do_scalar_op h lhs rhs sub

def pipevec_tensor_multiply_tensor {α : Type} [Mul α] (h : Heap α)
    (lhs rhs : PipevecTensorPriv) : CResult (Heap α × PipevecTensorPriv) :=
  pipevec_tensor_do_elementwise_op h lhs rhs mul

def pipevec_tensor_multiply_scalar {α : Type} [Mul α] (h : Heap α)
    (lhs : PipevecTensorPriv) (rhs : α) : CResult (Heap α × PipevecTensorPriv) :=
  pipevec_tensor_do_scalar_op h lhs rhs mul

def pipevec_tensor_divide_tensor {α : Type} [Div α] (h : Heap α)
    (lhs rhs : PipevecTensorPriv) : CResult (Heap α × PipevecTensorPriv) :=
  pipevec_tensor_do_elementwise_op h lhs rhs divide

def pipevec_tensor_divide_scalar {α : Type} [Div α] (h : Heap α)
    (lhs : PipevecTensorPriv) (rhs : α) : CResult (Heap α × PipevecTensorPriv) :=
  pipevec_tensor_do_scalar_op h lhs rhs divide

def msg_same_leading : String := " must have the same leading shape"

/-- The g_set_error message for mismatched leading shapes in
pipevec_tensor_inner_product_tensor. -/
def inner_product_leading_msg (l r : List Nat) : String :=
  (format_size_t_array l).getD empty_str ++ msg_and ++
    (format_size_t_array r).getD empty_str ++ msg_same_leading

def msg_arrays_of_shape : String := "Arrays of shape "

def msg_not_compatible : String := " are not compatible for inner product, "

def msg_neq : String := " != "

/-- The g_set_error message for a mismatched contraction dimension in
pipevec_tensor_inner_product_tensor. -/
def inner_product_dim_msg (l r : List Nat) (ld rd : Nat) : String :=
  msg_arrays_of_shape ++ (format_size_t_array l).getD empty_str ++ msg_and ++
    (format_size_t_array r).getD empty_str ++ msg_not_compatible ++
    toString ld ++ msg_neq ++ toString rd

/-- The result shape construction of inner_product: a copy of the lhs shape
whose entry len-2 is rewritten with itself and whose last entry is replaced
by the rhs last entry. -/
def inner_product_new_shape (lhs rhs : List Nat) : List Nat :=
  (lhs.set (lhs.length - 2) (lhs.getD (lhs.length - 2) 0)).set
    (lhs.length - 1) (rhs.getD (rhs.length - 1) 0)

/-- pipevec_tensor_inner_product_tensor: after the two shape checks, allocate
the result with the lhs shape whose last entry is replaced by the rhs last
entry, then run the batch/row/column/dot loops.  Note that batch_offset is
batch_index times the result tensor's per-batch padded block size and is used
to address all three buffers. -/
def pipevec_tensor_inner_product_tensor {α : Type} [Zero α] [Add α] [Mul α]
    (h : Heap α) (lhs rhs : PipevecTensorPriv) :
    CResult (Heap α × PipevecTensorPriv) :=
  if ¬ shape_subset_equal lhs.shape rhs.shape 2 then
    .error .BAD_SHAPE (inner_product_leading_msg lhs.shape rhs.shape)
  else if lhs.shape.getD (lhs.shape.length - 1) 0 ≠
      rhs.shape.getD (rhs.shape.length - 2) 0 then
    .error .BAD_SHAPE (inner_product_dim_msg lhs.shape rhs.shape
      (lhs.shape.getD (lhs.shape.length - 1) 0)
      (rhs.shape.getD (rhs.shape.length - 2) 0))
  else
    let new_shape := inner_product_new_shape lhs.shape rhs.shape
    match pipevec_tensor_alloc_shape h new_shape with
    | none => .ub
    | some (h1, nt) =>
      match nt.array, lhs.array, rhs.array with
      | some nbase, some lb, some rb =>
        let leading_batch := array_size_t_product (nt.shape.take (nt.shape.length - 2))
        let trailing_padded := array_size_t_product nt.padded_shape / leading_batch
        let rows := nt.shape.getD (nt.shape.length - 2) 0
        let columns := nt.shape.getD (nt.shape.length - 1) 0
        let dot_len := lhs.shape.getD (lhs.shape.length - 1) 0
        let row_length := nt.padded_shape.getD (nt.padded_shape.length - 1) 0
        let lhs_row_length := lhs.padded_shape.getD (lhs.padded_shape.length - 1) 0
        let rhs_row_length := rhs.padded_shape.getD (rhs.padded_shape.length - 1) 0
        let mem1 := (List.range leading_batch).foldl (fun m batch_index =>
          let batch_offset := batch_index * trailing_padded
          (List.range rows).foldl (fun m i =>
            (List.range columns).foldl (fun m j =>
              let dst_offset := batch_index * trailing_padded + i * row_length + j
              let m := store m (nbase + dst_offset) (0 : α)
              (List.range dot_len).foldl (fun m k =>
                store m (nbase + dst_offset)
                  (m (nbase + dst_offset) +
                   m (lb + (batch_offset + i * lhs_row_length + k)) *
                   m (rb + (batch_offset + k * rhs_row_length + j)))) m) m) m) h1.mem
        .ok ({ mem := mem1, next := h1.next }, nt)
      | _, _, _ => .ub

/-- pipevec_tensor_new: a fresh tensor populated through
pipevec_tensor_set_data. -/
def pipevec_tensor_new {α : Type} [Zero α] (h : Heap α) (shape : List Nat)
    (contents : List α) : CResult (Heap α × PipevecTensorPriv) :=
  pipevec_tensor_set_data h contents shape

/-- Specification-side description of a populated tensor: the buffer pointer
is set, the shape indexes successfully at rank-1 with a positive last
dimension, the padded shape is the one alloc_shape stores, and the allocation
lies entirely below the allocator frontier. -/
def WellFormed {α : Type} (h : Heap α) (t : PipevecTensorPriv) : Prop :=
  ∃ base last, t.array = some base ∧ t.shape.getLast? = some last ∧ 0 < last ∧
    t.padded_shape = t.shape.dropLast ++ [apply_padding last 8] ∧
    base + 8 * (array_size_t_product t.shape / last * apply_padding last 8) ≤ h.next

/-- Specification-side relation between heaps: the allocator frontier moved
forward and every already-allocated cell kept its value. -/
def HeapExtends {α : Type} (h h' : Heap α) : Prop :=
  h.next ≤ h'.next ∧ ∀ p, p < h.next → h'.mem p = h.mem p

/-- The stated invariant on a stored padded shape: equal to the shape on all
leading dimensions, with a last entry that is a multiple of 8 and at least the
shape's last entry. -/
def padded_shape_invariant (t : PipevecTensorPriv) : Prop :=
  t.padded_shape.length = t.shape.length ∧
  (∀ i, i + 1 < t.shape.length → t.padded_shape.getD i 0 = t.shape.getD i 0) ∧
  ∃ l pl, t.shape.getLast? = some l ∧ t.padded_shape.getLast? = some pl ∧
    pl % 8 = 0 ∧ l ≤ pl

/-- Read the logical data of a produced tensor, none when the operation did
not produce one. -/
def cresult_data {α : Type} (r : CResult (Heap α × PipevecTensorPriv)) :
    Option (List α) :=
  match r with
  | .ok (h, t) => pipevec_tensor_get_data h t
  | .error _ _ => none
  | .ub => none

/-- Observe the error outcome of an operation, none when it succeeded or hit
undefined behaviour. -/
def cresult_error {α : Type} (r : CResult (Heap α × PipevecTensorPriv)) :
    Option (PipevecError × String) :=
  match r with
  | .ok _ => none
  | .error e m => some (e, m)
  | .ub => none

/-- An initial empty heap over Int, the exact element carrier used for the
concrete test inputs (all of which are small integers, on which 32-bit float
arithmetic is exact). -/
def heap0 : Heap Int := { mem := fun _ => 0, next := 0 }

/-- Concrete run: subtraction of the one-element tensors holding 5 and 2. -/
def sub_tensor_example : Option (List Int) :=
  match pipevec_tensor_new heap0 [1] [5] with
  | .ok (h1, a) =>
    match pipevec_tensor_new h1 [1] [2] with
    | .ok (h2, b) => cresult_data (pipevec_tensor_sub_tensor h2 a b)
    | _ => none
  | _ => none

/-- Concrete run: the one-element tensor holding 5, minus the scalar 2. -/
def sub_scalar_example : Option (List Int) :=
  match pipevec_tensor_new heap0 [1] [5] with
  | .ok (h1, a) => cresult_data (pipevec_tensor_sub_scalar h1 a 2)
  | _ => none

/-- Concrete run: the rank-2 inner product of [[1,2,3],[4,5,6]] with
[[7,8],[9,10],[11,12]]. -/
def inner_product_example : Option (List Int) :=
  match pipevec_tensor_new heap0 [2, 3] [1, 2, 3, 4, 5, 6] with
  | .ok (h1, a) =>
    match pipevec_tensor_new h1 [3, 2] [7, 8, 9, 10, 11, 12] with
    | .ok (h2, b) => cresult_data (pipevec_tensor_inner_product_tensor h2 a b)
    | _ => none
  | _ => none

/-- Concrete run: the batched inner product of lhs of shape (2,1,2) holding
[[[1,2]],[[3,4]]] with rhs of shape (2,2,1) holding [[[10],[20]],[[30],[40]]].
Per batch these are a row vector times a column vector, so the claimed result
is [[[50]],[[250]]]. -/
def inner_product_batched_example : Option (List Int) :=
  match pipevec_tensor_new heap0 [2, 1, 2] [1, 2, 3, 4] with
  | .ok (h1, a) =>
    match pipevec_tensor_new h1 [2, 2, 1] [10, 20, 30, 40] with
    | .ok (h2, b) => cresult_data (pipevec_tensor_inner_product_tensor h2 a b)
    | _ => none
  | _ => none

/-- The map callback of the spec's concrete test: v + location0 * 10 +
location1. -/
def map_example_func (v : Int) (loc : List Nat) : Int :=
  v + (loc.getD 0 0 * 10 + loc.getD 1 0 : Nat)

/-- Concrete run: mapping map_example_func over a zero tensor of shape (2,3). -/
def map_example : Option (List Int) :=
  match pipevec_tensor_new heap0 [2, 3] [0, 0, 0, 0, 0, 0] with
  | .ok (h1, a) => cresult_data (pipevec_tensor_map h1 a map_example_func)
  | _ => none

/-- The literal error text set_data produces for shape [2,3] and five contents
elements: the shape is formatted as a stray bracket (the formatter prints loop
indices and misplaces the terminator) and the reported length is the rank 2,
not the contents length 5. -/
def set_data_msg_observed : String :=
  "Shape ] has product 6 which does not match array length 2i"

/-- The literal error text the inner product produces for the mismatched
batch axes of shapes [2,3] and [2,2,3]: both shapes pass through the same
broken formatter as set_data's message, so the text contains neither shape's
dimension values. -/
def inner_product_leading_msg_observed : String :=
  "] and [] must have the same leading shape"

theorem store_at {α : Type} (m : Mem α) (i : Nat) (v : α) : store m i v i = v := by
  simp [store]

theorem store_ne {α : Type} (m : Mem α) (i : Nat) (v : α) {k : Nat} (h : k ≠ i) :
    store m i v k = m k := by
  simp [store, h]

theorem foldl_store_frame {α β : Type} (f : Mem α → β → Mem α) (B : Nat)
    (hf : ∀ m x p, p < B → f m x p = m p) :
    ∀ (L : List β) (m0 : Mem α) (p : Nat), p < B → (L.foldl f m0) p = m0 p := by
  intro L
  induction L with
  | nil => intro m0 p _; rfl
  | cons x L ih =>
    intro m0 p hp
    rw [List.foldl_cons, ih (f m0 x) p hp, hf m0 x p hp]

theorem div_mod_decomp (pad s r : Nat) (hr : r < pad) :
    (s * pad + r) / pad = s ∧ (s * pad + r) % pad = r := by
  have hpad : 0 < pad := Nat.lt_of_le_of_lt (Nat.zero_le r) hr
  constructor
  · rw [Nat.add_comm, Nat.add_mul_div_right r s hpad, Nat.div_eq_of_lt hr, Nat.zero_add]
  · rw [Nat.add_comm, Nat.add_mul_mod_self_right, Nat.mod_eq_of_lt hr]

/-- A loop storing, for j over range' s n, the value v m j at cell D + j,
where v may read the evolving memory only below B or at the written cell
itself, leaves exactly the written window changed. -/
theorem foldl_store_char {α : Type} (f : Mem α → Nat → Mem α) (v : Mem α → Nat → α)
    (D B : Nat) (hB : B ≤ D)
    (hf : ∀ m j, f m j = store m (D + j) (v m j)) :
    ∀ (n s : Nat) (m0 : Mem α),
      (∀ j m m', s ≤ j → j < s + n →
         (∀ q, q < B ∨ q = D + j → m q = m' q) → v m j = v m' j) →
      ∀ p : Nat,
        ((List.range' s n).foldl f m0) p =
          if D + s ≤ p ∧ p < D + s + n then v m0 (p - D) else m0 p := by
  intro n
  induction n with
  | zero =>
    intro s m0 _ p
    simp only [List.range'_zero, List.foldl_nil]
    rw [if_neg (by omega)]
  | succ n ih =>
    intro s m0 hv p
    rw [List.range'_succ, List.foldl_cons, hf m0 s]
    have hv' : ∀ j m m', s + 1 ≤ j → j < s + 1 + n →
        (∀ q, q < B ∨ q = D + j → m q = m' q) → v m j = v m' j := by
      intro j m m' h1 h2 hq
      exact hv j m m' (by omega) (by omega) hq
    rw [ih (s + 1) (store m0 (D + s) (v m0 s)) hv' p]
    by_cases hcase : D + (s + 1) ≤ p ∧ p < D + (s + 1) + n
    · rw [if_pos hcase, if_pos (by omega)]
      apply hv (p - D) _ _ (by omega) (by omega)
      intro q hq
      apply store_ne
      rcases hq with hlt | heq
      · omega
      · omega
    · rw [if_neg hcase]
      by_cases hps : p = D + s
      · subst hps
        rw [if_pos (by omega), store_at]
        congr 1
        omega
      · rw [store_ne m0 (D + s) (v m0 s) hps, if_neg (by omega)]

/-- An outer loop over rows i in range' s t, each of which rewrites exactly
the cells D + i * pad + j for j < w (w at most the row stride pad) with a
value that may read the evolving memory only below B or at the written cell
itself, changes exactly those cells, to the row values taken on the initial
memory. -/
theorem rows_foldl_char {α : Type} (rowOp : Mem α → Nat → Mem α)
    (RV : Nat → Nat → Mem α → α) (D pad w B : Nat)
    (hB : B ≤ D) (hw : w ≤ pad) (hpad : 0 < pad) :
    ∀ (t s : Nat) (m0 : Mem α),
      (∀ m i p, s ≤ i → i < s + t →
        rowOp m i p = if D + i * pad ≤ p ∧ p < D + i * pad + w
          then RV i (p - (D + i * pad)) m else m p) →
      (∀ i j m m', s ≤ i → i < s + t → j < w →
        (∀ q, q < B ∨ q = D + i * pad + j → m q = m' q) → RV i j m = RV i j m') →
      ∀ p : Nat,
        ((List.range' s t).foldl rowOp m0) p =
          if D + s * pad ≤ p ∧ p < D + (s + t) * pad ∧ (p - D) % pad < w
          then RV ((p - D) / pad) ((p - D) % pad) m0 else m0 p := by
  intro t
  induction t with
  | zero =>
    intro s m0 _ _ p
    simp only [List.range'_zero, List.foldl_nil, Nat.add_zero]
    rw [if_neg (by omega)]
  | succ t ih =>
    intro s m0 hrow hRV p
    have e1 : (s + 1) * pad = s * pad + pad := by
      rw [Nat.add_mul, Nat.one_mul]
    have e2 : (s + (t + 1)) * pad = s * pad + (t * pad + pad) := by
      rw [Nat.add_mul, Nat.succ_mul]
    have e3 : (s + 1 + t) * pad = s * pad + pad + t * pad := by
      rw [Nat.add_mul, Nat.add_mul, Nat.one_mul]
    rw [List.range'_succ, List.foldl_cons]
    have hrow' : ∀ m i p, s + 1 ≤ i → i < s + 1 + t →
        rowOp m i p = if D + i * pad ≤ p ∧ p < D + i * pad + w
          then RV i (p - (D + i * pad)) m else m p := by
      intro m i p h1 h2
      exact hrow m i p (by omega) (by omega)
    have hRV' : ∀ i j m m', s + 1 ≤ i → i < s + 1 + t → j < w →
        (∀ q, q < B ∨ q = D + i * pad + j → m q = m' q) → RV i j m = RV i j m' := by
      intro i j m m' h1 h2 h3 hq
      exact hRV i j m m' (by omega) (by omega) h3 hq
    rw [ih (s + 1) (rowOp m0 s) hrow' hRV' p]
    have hm1 : ∀ q, rowOp m0 s q =
        if D + s * pad ≤ q ∧ q < D + s * pad + w then RV s (q - (D + s * pad)) m0 else m0 q :=
      fun q => hrow m0 s q (by omega) (by omega)
    by_cases hcase : D + (s + 1) * pad ≤ p ∧ p < D + (s + 1 + t) * pad ∧ (p - D) % pad < w
    · rw [if_pos hcase, if_pos (by rw [e2]; omega)]
      have hpD : D ≤ p := by omega
      have hi1 : s + 1 ≤ (p - D) / pad := by
        rw [Nat.le_div_iff_mul_le hpad]
        omega
      have hi2 : (p - D) / pad < s + (t + 1) := by
        rw [Nat.div_lt_iff_lt_mul hpad, Nat.add_mul, Nat.succ_mul]
        omega
      have hself : D + (p - D) / pad * pad + (p - D) % pad = p := by
        have := Nat.div_add_mod (p - D) pad
        have hc : (p - D) / pad * pad = pad * ((p - D) / pad) := Nat.mul_comm _ _
        omega
      apply hRV _ _ _ _ (by omega) (by omega) (by omega)
      intro q hq
      rw [hm1 q]
      apply if_neg
      rcases hq with hlt | heq
      · omega
      · omega
    · rw [if_neg hcase, hm1 p]
      by_cases hrowp : D + s * pad ≤ p ∧ p < D + s * pad + w
      · have hd : (p - D) / pad = s ∧ (p - D) % pad = p - (D + s * pad) := by
          have hx : p - D = s * pad + (p - (D + s * pad)) := by omega
          rw [hx]
          exact div_mod_decomp pad s (p - (D + s * pad)) (by omega)
        rw [if_pos hrowp, if_pos (by rw [e2, hd.2]; omega), hd.1, hd.2]
      · rw [if_neg hrowp]
        have hnot : ¬(D + s * pad ≤ p ∧ p < D + (s + (t + 1)) * pad ∧ (p - D) % pad < w) := by
          intro hcon
          obtain ⟨hc1, hc2, hc3⟩ := hcon
          rw [e2] at hc2
          by_cases hsplit : p < D + s * pad + pad
          · have hx : p - D = s * pad + (p - (D + s * pad)) := by omega
            have hd := div_mod_decomp pad s (p - (D + s * pad)) (by omega)
            rw [hx, hd.2] at hc3
            omega
          · exact hcase ⟨by omega, by rw [e3]; omega, hc3⟩
        rw [if_neg hnot]

theorem apply_padding_mod (a : Nat) : apply_padding a 8 % 8 = 0 := by
  unfold apply_padding
  omega

theorem apply_padding_le (a : Nat) : a ≤ apply_padding a 8 := by
  unfold apply_padding
  omega

theorem array_size_t_product_concat (l : List Nat) (x : Nat) :
    array_size_t_product (l ++ [x]) = array_size_t_product l * x := by
  unfold array_size_t_product
  rw [List.foldl_append]
  rfl

theorem getLast?_decomp {l : List Nat} {x : Nat} (h : l.getLast? = some x) :
    l = l.dropLast ++ [x] := by
  obtain ⟨ys, rfl⟩ := List.getLast?_eq_some_iff.mp h
  rw [List.dropLast_concat]

theorem product_decomp {l : List Nat} {x : Nat} (h : l.getLast? = some x) :
    array_size_t_product l = array_size_t_product l.dropLast * x := by
  conv_lhs => rw [getLast?_decomp h]
  rw [array_size_t_product_concat]

theorem leading_mul {shape : List Nat} {last : Nat} (h : shape.getLast? = some last)
    (hpos : 0 < last) :
    array_size_t_product shape / last * last = array_size_t_product shape := by
  rw [product_decomp h, Nat.mul_div_cancel _ hpos]

theorem flatMap_range_chunk {γ : Type} (f : Nat → Nat → γ) (m : Nat) :
    ∀ n : Nat, (List.range n).flatMap (fun i => (List.range m).map (fun j => f i j)) =
      (List.range (n * m)).map (fun k => f (k / m) (k % m)) := by
  intro n
  induction n with
  | zero => simp
  | succ n ih =>
    rw [List.range_succ, List.flatMap_append, ih, Nat.succ_mul, List.range_add,
      List.map_append, List.map_map, List.flatMap_singleton]
    congr 1
    apply List.map_congr_left
    intro j hj
    have hd := div_mod_decomp m n j (List.mem_range.mp hj)
    simp only [Function.comp]
    rw [hd.1, hd.2]

theorem map_getD_range {γ : Type} (d : γ) : ∀ (l : List γ),
    (List.range l.length).map (fun k => l.getD k d) = l := by
  intro l
  induction l with
  | nil => rfl
  | cons x l ih =>
    rw [List.length_cons, List.range_succ_eq_map, List.map_cons, List.map_map]
    have htail : List.map ((fun k => (x :: l).getD k d) ∘ Nat.succ) (List.range l.length) = l := ih
    rw [htail]
    rfl

theorem getD_map_range {γ : Type} (g : Nat → γ) (n k : Nat) (hk : k < n) (d : γ) :
    ((List.range n).map g).getD k d = g k := by
  rw [List.getD_eq_getElem?_getD, List.getElem?_map, List.getElem?_range hk]
  rfl

theorem flatMap_range_getD {γ : Type} (l : List γ) (d : γ) (n m : Nat)
    (hlen : l.length = n * m) :
    (List.range n).flatMap (fun i => (List.range m).map (fun j => l.getD (i * m + j) d)) = l := by
  rw [flatMap_range_chunk (fun i j => l.getD (i * m + j) d) m n]
  have hcg : ∀ k ∈ List.range (n * m), l.getD (k / m * m + k % m) d = l.getD k d := by
    intro k _
    have h1 := Nat.div_add_mod k m
    have h2 : k / m * m = m * (k / m) := Nat.mul_comm _ _
    congr 1
    omega
  rw [List.map_congr_left hcg, ← hlen, map_getD_range]

theorem alloc_shape_eq {α : Type} (h : Heap α) (shape : List Nat) (last : Nat)
    (hl : shape.getLast? = some last) (hpos : 0 < last) :
    pipevec_tensor_alloc_shape h shape =
      some ({ mem := h.mem,
              next := h.next + 8 * (array_size_t_product shape / last * apply_padding last 8) },
            { array := some h.next, shape := shape,
              padded_shape := shape.dropLast ++ [apply_padding last 8] }) := by
  have hne : ¬ last = 0 := by omega
  simp [pipevec_tensor_alloc_shape, hl, hne]

/-- Characterization of a successful set_data: the exact result record, and
the pointwise content of the new memory - row r of the padded buffer holds
the contents row r followed by zero padding, everything else is untouched. -/
theorem set_data_char {α : Type} [Zero α] (h : Heap α) (contents : List α)
    (shape : List Nat) (last : Nat) (hl : shape.getLast? = some last)
    (hpos : 0 < last) (hlen : array_size_t_product shape = contents.length) :
    ∃ mem1 : Mem α,
      pipevec_tensor_set_data h contents shape =
        .ok ({ mem := mem1,
               next := h.next + 8 * (array_size_t_product shape / last * apply_padding last 8) },
             { array := some h.next, shape := shape,
               padded_shape := shape.dropLast ++ [apply_padding last 8] }) ∧
      ∀ p, mem1 p =
        if h.next ≤ p ∧ p < h.next + array_size_t_product shape / last * apply_padding last 8
        then (if (p - h.next) % apply_padding last 8 < last
              then contents.getD
                     ((p - h.next) / apply_padding last 8 * last +
                      (p - h.next) % apply_padding last 8) 0
              else 0)
        else h.mem p := by
  unfold pipevec_tensor_set_data
  rw [alloc_shape_eq h shape last hl hpos, hl, if_neg (by omega)]
  simp only []
  rw [List.getLast?_concat]
  simp only []
  refine ⟨_, rfl, ?_⟩
  intro p
  have hwle : last ≤ apply_padding last 8 := apply_padding_le last
  have hpadpos : 0 < apply_padding last 8 := by omega
  have HROW : ∀ (m : Mem α) (i p : Nat), 0 ≤ i →
      i < 0 + array_size_t_product shape / last →
      (fun m i =>
        List.foldl (fun m j => store m (h.next + i * apply_padding last 8 + j) (0 : α))
          (List.foldl
            (fun m j =>
              store m (h.next + i * apply_padding last 8 + j)
                (contents.getD (i * last + j) 0))
            m (List.range last))
          (List.range' last (apply_padding last 8 - last))) m i p =
      if h.next + i * apply_padding last 8 ≤ p ∧
          p < h.next + i * apply_padding last 8 + apply_padding last 8
      then (fun i j (m : Mem α) => if j < last then contents.getD (i * last + j) 0 else 0) i
             (p - (h.next + i * apply_padding last 8)) m
      else m p := by
    intro m i q _ _
    simp only []
    have H1 := foldl_store_char
      (fun m j => store m (h.next + i * apply_padding last 8 + j)
        (contents.getD (i * last + j) 0))
      (fun m j => contents.getD (i * last + j) 0)
      (h.next + i * apply_padding last 8) h.next (by omega)
      (fun m j => rfl)
      last 0 m (fun j m m' _ _ _ => rfl) q
    have H2 := foldl_store_char
      (fun m j => store m (h.next + i * apply_padding last 8 + j) (0 : α))
      (fun m j => (0 : α))
      (h.next + i * apply_padding last 8) h.next (by omega)
      (fun m j => rfl)
      (apply_padding last 8 - last) last
      (List.foldl
        (fun m j =>
          store m (h.next + i * apply_padding last 8 + j)
            (contents.getD (i * last + j) 0))
        m (List.range last))
      (fun j m m' _ _ _ => rfl) q
    rw [← List.range_eq_range'] at H1
    rw [H2, H1]
    by_cases hc : h.next + i * apply_padding last 8 ≤ q ∧
        q < h.next + i * apply_padding last 8 + apply_padding last 8
    · rw [if_pos hc]
      by_cases hcol : q - (h.next + i * apply_padding last 8) < last
      · rw [if_neg (by omega), if_pos (by omega), if_pos hcol]
      · rw [if_pos (by omega), if_neg hcol]
    · rw [if_neg hc, if_neg (by omega), if_neg (by omega)]
  have HX := rows_foldl_char
    (fun m i =>
      List.foldl (fun m j => store m (h.next + i * apply_padding last 8 + j) (0 : α))
        (List.foldl
          (fun m j =>
            store m (h.next + i * apply_padding last 8 + j)
              (contents.getD (i * last + j) 0))
          m (List.range last))
        (List.range' last (apply_padding last 8 - last)))
    (fun i j m => if j < last then contents.getD (i * last + j) 0 else 0)
    h.next (apply_padding last 8) (apply_padding last 8) h.next
    (Nat.le_refl _) (Nat.le_refl _) hpadpos
    (array_size_t_product shape / last) 0 h.mem
    HROW
    (fun i j m m' _ _ _ _ => rfl) p
  rw [show List.range (array_size_t_product shape / last) =
        List.range' 0 (array_size_t_product shape / last) from List.range_eq_range' _, HX]
  simp only [Nat.zero_mul, Nat.add_zero, Nat.zero_add]
  have hmlt : (p - h.next) % apply_padding last 8 < apply_padding last 8 :=
    Nat.mod_lt _ hpadpos
  by_cases hc : h.next ≤ p ∧ p < h.next + array_size_t_product shape / last * apply_padding last 8
  · rw [if_pos ⟨hc.1, hc.2, hmlt⟩, if_pos hc]
  · rw [if_neg (by omega), if_neg hc]

/-- Characterization of get_data on a tensor whose array pointer and last
dimension are known. -/
theorem get_data_char {α : Type} (h : Heap α) (t : PipevecTensorPriv) (base last : Nat)
    (ha : t.array = some base) (hl : t.shape.getLast? = some last) (hpos : 0 < last) :
    pipevec_tensor_get_data h t =
      some ((List.range (array_size_t_product t.shape / last)).flatMap (fun i =>
        (List.range last).map (fun j =>
          h.mem (base + i * apply_padding last 8 + j)))) := by
  unfold pipevec_tensor_get_data
  rw [ha, hl]
  simp only []
  rw [if_neg (by omega)]

/-- C1. For every shape of rank at least 1 with positive dimensions and every
flat contents sequence whose length equals the shape product, get_data of
new(shape, contents) returns exactly contents: same length, same values in
the same order, with no padding cells visible. -/
theorem C1_roundtrip {α : Type} [Zero α] (h : Heap α) (shape : List Nat)
    (contents : List α) (hdims : ∀ d ∈ shape, 0 < d) (hrank : shape ≠ [])
    (hlen : array_size_t_product shape = contents.length) :
    ∃ h2 t, pipevec_tensor_new h shape contents = .ok (h2, t) ∧
      pipevec_tensor_get_data h2 t = some contents := by
  obtain ⟨last, hl⟩ : ∃ last, shape.getLast? = some last := by
    cases hx : shape.getLast? with
    | none => exact absurd (List.getLast?_eq_none_iff.mp hx) hrank
    | some y => exact ⟨y, rfl⟩
  have hpos : 0 < last := hdims last (List.mem_of_getLast?_eq_some hl)
  obtain ⟨mem1, heq, hchar⟩ := set_data_char h contents shape last hl hpos hlen
  refine ⟨_, _, heq, ?_⟩
  rw [get_data_char _ _ h.next last rfl hl hpos]
  have hprod : array_size_t_product shape = array_size_t_product shape / last * last :=
    (leading_mul hl hpos).symm
  have hwle : last ≤ apply_padding last 8 := apply_padding_le last
  congr 1
  rw [flatMap_range_chunk
    (fun i j => mem1 (h.next + i * apply_padding last 8 + j)) last
    (array_size_t_product shape / last)]
  have hcg : ∀ k ∈ List.range (array_size_t_product shape / last * last),
      mem1 (h.next + k / last * apply_padding last 8 + k % last) = contents.getD k 0 := by
    intro k hk
    have hklt : k < array_size_t_product shape / last * last := List.mem_range.mp hk
    have hi : k / last < array_size_t_product shape / last := by
      rw [Nat.div_lt_iff_lt_mul hpos]
      omega
    have hj : k % last < last := Nat.mod_lt _ hpos
    have hdm := Nat.div_add_mod k last
    rw [hchar]
    have hoff : h.next + k / last * apply_padding last 8 + k % last - h.next =
        k / last * apply_padding last 8 + k % last := by omega
    have hd := div_mod_decomp (apply_padding last 8) (k / last) (k % last) (by omega)
    rw [if_pos ?hcond]
    case hcond =>
      constructor
      · omega
      · have hmul : (k / last + 1) * apply_padding last 8 ≤
            array_size_t_product shape / last * apply_padding last 8 :=
          Nat.mul_le_mul_right _ (by omega)
        rw [Nat.add_mul, Nat.one_mul] at hmul
        omega
    rw [hoff, hd.1, hd.2, if_pos hj]
    congr 1
    have hc2 : k / last * last = last * (k / last) := Nat.mul_comm _ _
    omega
  rw [List.map_congr_left hcg]
  have hclen : contents.length = array_size_t_product shape / last * last := by omega
  rw [← hclen, map_getD_range]

/-- C1 witness at shape (2,3) and contents 1..6. -/
theorem C1_roundtrip_witness :
    (∀ d ∈ ([2, 3] : List Nat), 0 < d) ∧ ([2, 3] : List Nat) ≠ [] ∧
      array_size_t_product [2, 3] = ([1, 2, 3, 4, 5, 6] : List Int).length ∧
      ∃ h2 t, pipevec_tensor_new heap0 [2, 3] ([1, 2, 3, 4, 5, 6] : List Int) = .ok (h2, t) ∧
        pipevec_tensor_get_data h2 t = some [1, 2, 3, 4, 5, 6] :=
  ⟨by decide, by decide, by decide,
    C1_roundtrip heap0 [2, 3] [1, 2, 3, 4, 5, 6] (by decide) (by decide) (by decide)⟩

/-- C2. The source's sub element function computes lhs + rhs: on the
one-element tensors holding 5 and 2, sub_tensor yields 7, and the tensor
holding 5 minus the scalar 2 also yields 7, not the difference 3 the claim
states. -/
theorem C2_sub_is_add :
    sub_tensor_example = some [7] ∧ sub_scalar_example = some [7] ∧
      sub (5 : Int) 2 = 5 + 2 ∧ ((7 : Int) ≠ 5 - 2) :=
  ⟨by decide, by decide, rfl, by decide⟩

/-- The record produced by alloc_shape satisfies the padded-shape invariant. -/
theorem alloc_rec_invariant (a : Option Nat) (shape : List Nat) (last : Nat)
    (hl : shape.getLast? = some last) :
    padded_shape_invariant ⟨a, shape, shape.dropLast ++ [apply_padding last 8]⟩ := by
  have hne : shape ≠ [] := by
    intro he
    rw [he] at hl
    exact absurd hl (by simp)
  have hlp : 0 < shape.length := List.length_pos.mpr hne
  refine ⟨?_, ?_, last, apply_padding last 8, hl, List.getLast?_concat _,
    apply_padding_mod last, apply_padding_le last⟩
  · simp only []
    rw [List.length_append, List.length_dropLast]
    simp only [List.length_cons, List.length_nil]
    omega
  · intro i hi
    simp only [] at hi ⊢
    rw [List.getD_eq_getElem?_getD, List.getD_eq_getElem?_getD,
      List.getElem?_append_left (by rw [List.length_dropLast]; omega),
      List.getElem?_dropLast, if_pos (by omega)]

/-- Inversion of a successful alloc_shape. -/
theorem alloc_shape_inv {α : Type} {h : Heap α} {shape : List Nat} {h1 : Heap α}
    {t : PipevecTensorPriv}
    (heq : pipevec_tensor_alloc_shape h shape = some (h1, t)) :
    ∃ last, shape.getLast? = some last ∧ 0 < last ∧
      h1 = { mem := h.mem,
             next := h.next + 8 * (array_size_t_product shape / last * apply_padding last 8) } ∧
      t = { array := some h.next, shape := shape,
            padded_shape := shape.dropLast ++ [apply_padding last 8] } := by
  unfold pipevec_tensor_alloc_shape at heq
  cases hl : shape.getLast? with
  | none => rw [hl] at heq; exact absurd heq (by simp)
  | some last =>
    rw [hl] at heq
    simp only [] at heq
    by_cases hz : last = 0
    · rw [if_pos hz] at heq
      exact absurd heq (by simp)
    · rw [if_neg hz] at heq
      simp only [Option.some.injEq, Prod.mk.injEq] at heq
      exact ⟨last, rfl, by omega, heq.1.symm, heq.2.symm⟩

/-- Inversion of a successful set_data: the shape product matched the contents
length and the shape had a positive last dimension. -/
theorem set_data_inv {α : Type} [Zero α] {h : Heap α} {c : List α} {s : List Nat}
    {h' : Heap α} {t' : PipevecTensorPriv}
    (heq : pipevec_tensor_set_data h c s = .ok (h', t')) :
    array_size_t_product s = c.length ∧ ∃ last, s.getLast? = some last ∧ 0 < last := by
  unfold pipevec_tensor_set_data at heq
  simp only [] at heq
  by_cases hok : array_size_t_product s ≠ c.length
  · rw [if_pos hok] at heq
    exact absurd heq (by simp)
  · rw [if_neg hok] at heq
    refine ⟨by omega, ?_⟩
    cases halloc : pipevec_tensor_alloc_shape h s with
    | none => rw [halloc] at heq; exact absurd heq (by simp)
    | some pr =>
      obtain ⟨h1, t1⟩ := pr
      obtain ⟨last, hl, hpos, _, _⟩ := alloc_shape_inv halloc
      exact ⟨last, hl, hpos⟩

/-- Inversion of a successful set_data_aligned_padded. -/
theorem sdap_inv {α : Type} {h : Heap α} {shape : List Nat} {src n : Nat}
    {h' : Heap α} {t' : PipevecTensorPriv}
    (heq : pipevec_tensor_set_data_aligned_padded h shape src n = .ok (h', t')) :
    ∃ last, shape.getLast? = some last ∧ 0 < last ∧
      t' = { array := some h.next, shape := shape,
             padded_shape := shape.dropLast ++ [apply_padding last 8] } ∧
      h' = { mem := memcpy h.mem h.next src n,
             next := h.next + 8 * (array_size_t_product shape / last * apply_padding last 8) } := by
  unfold pipevec_tensor_set_data_aligned_padded at heq
  cases halloc : pipevec_tensor_alloc_shape h shape with
  | none => rw [halloc] at heq; exact absurd heq (by simp)
  | some pr =>
    obtain ⟨h1, t1⟩ := pr
    rw [halloc] at heq
    simp only [] at heq
    obtain ⟨last, hl, hpos, hh1, ht1⟩ := alloc_shape_inv halloc
    subst hh1 ht1
    simp only [] at heq
    simp only [CResult.ok.injEq, Prod.mk.injEq] at heq
    exact ⟨last, hl, hpos, heq.2.symm, heq.1.symm⟩

/-- Inversion of a successful copy. -/
theorem copy_inv {α : Type} {h : Heap α} {t : PipevecTensorPriv} {h' : Heap α}
    {t' : PipevecTensorPriv} (heq : pipevec_tensor_copy h t = .ok (h', t')) :
    ∃ src last, t.array = some src ∧ t.shape.getLast? = some last ∧ 0 < last ∧
      t' = { array := some h.next, shape := t.shape,
             padded_shape := t.shape.dropLast ++ [apply_padding last 8] } ∧
      h' = { mem := memcpy h.mem h.next src (array_size_t_product t.padded_shape),
             next := h.next + 8 * (array_size_t_product t.shape / last * apply_padding last 8) } := by
  unfold pipevec_tensor_copy at heq
  cases harr : t.array with
  | none => rw [harr] at heq; exact absurd heq (by simp)
  | some src =>
    rw [harr] at heq
    obtain ⟨last, hl, hpos, ht', hh'⟩ := sdap_inv heq
    exact ⟨src, last, rfl, hl, hpos, ht', hh'⟩

/-- The record of a successful set_data. -/
theorem set_data_rec {α : Type} [Zero α] {h : Heap α} {c : List α} {s : List Nat}
    {h' : Heap α} {t' : PipevecTensorPriv}
    (heq : pipevec_tensor_set_data h c s = .ok (h', t')) :
    ∃ last, s.getLast? = some last ∧ 0 < last ∧
      t' = { array := some h.next, shape := s,
             padded_shape := s.dropLast ++ [apply_padding last 8] } := by
  obtain ⟨hlen, last, hl, hpos⟩ := set_data_inv heq
  obtain ⟨mem1, heq2, _⟩ := set_data_char h c s last hl hpos hlen
  rw [heq] at heq2
  simp only [CResult.ok.injEq, Prod.mk.injEq] at heq2
  exact ⟨last, hl, hpos, heq2.2⟩

/-- Inversion of a successful map. -/
theorem map_inv {α : Type} {h : Heap α} {t : PipevecTensorPriv}
    {func : α → List Nat → α} {h' : Heap α} {t' : PipevecTensorPriv}
    (heq : pipevec_tensor_map h t func = .ok (h', t')) :
    ∃ src last, t.array = some src ∧ t.shape.getLast? = some last ∧ 0 < last ∧
      t' = { array := some h.next, shape := t.shape,
             padded_shape := t.shape.dropLast ++ [apply_padding last 8] } := by
  unfold pipevec_tensor_map at heq
  cases hcopy : pipevec_tensor_copy h t with
  | ub => rw [hcopy] at heq; exact absurd heq (by simp)
  | error e m => rw [hcopy] at heq; exact absurd heq (by simp)
  | ok pr =>
    obtain ⟨h1, dst⟩ := pr
    rw [hcopy] at heq
    simp only [] at heq
    obtain ⟨src, last, harr, hl, hpos, hdst, hh1⟩ := copy_inv hcopy
    subst hdst
    simp only [] at heq
    rw [hl, List.getLast?_concat] at heq
    simp only [] at heq
    rw [if_neg (by omega)] at heq
    simp only [CResult.ok.injEq, Prod.mk.injEq] at heq
    exact ⟨src, last, harr, hl, hpos, heq.2.symm⟩

/-- Inversion of a successful elementwise operation. -/
theorem elementwise_inv {α : Type} {h : Heap α} {lhs rhs : PipevecTensorPriv}
    {func : α → α → α} {h' : Heap α} {t' : PipevecTensorPriv}
    (heq : pipevec_tensor_do_elementwise_op h lhs rhs func = .ok (h', t')) :
    shapes_equal lhs.shape rhs.shape = true ∧
    ∃ src rsrc last, lhs.array = some src ∧ rhs.array = some rsrc ∧
      lhs.shape.getLast? = some last ∧ 0 < last ∧
      t' = { array := some h.next, shape := lhs.shape,
             padded_shape := lhs.shape.dropLast ++ [apply_padding last 8] } := by
  unfold pipevec_tensor_do_elementwise_op at heq
  by_cases hsh : shapes_equal lhs.shape rhs.shape
  · rw [if_neg (by simp [hsh])] at heq
    cases hcopy : pipevec_tensor_copy h lhs with
    | ub => rw [hcopy] at heq; exact absurd heq (by simp)
    | error e m => rw [hcopy] at heq; exact absurd heq (by simp)
    | ok pr =>
      obtain ⟨h1, dst⟩ := pr
      rw [hcopy] at heq
      simp only [] at heq
      obtain ⟨src, last, harr, hl, hpos, hdst, hh1⟩ := copy_inv hcopy
      subst hdst
      simp only [] at heq
      cases hrarr : rhs.array with
      | none => rw [harr, hrarr, hl] at heq; simp at heq
      | some rsrc =>
        cases hpl : lhs.padded_shape.getLast? with
        | none => rw [harr, hrarr, hl, hpl] at heq; simp at heq
        | some plast =>
          rw [harr, hrarr, hl, hpl] at heq
          simp only [] at heq
          rw [if_neg (by omega)] at heq
          simp only [CResult.ok.injEq, Prod.mk.injEq] at heq
          exact ⟨hsh, src, rsrc, last, harr, rfl, hl, hpos, heq.2.symm⟩
  · rw [if_pos (by simp [hsh])] at heq
    exact absurd heq (by simp)

/-- Inversion of a successful scalar operation. -/
theorem scalar_inv {α : Type} {h : Heap α} {lhs : PipevecTensorPriv} {x : α}
    {func : α → α → α} {h' : Heap α} {t' : PipevecTensorPriv}
    (heq : pipevec_tensor_do_scalar_op h lhs x func = .ok (h', t')) :
    ∃ src last, lhs.array = some src ∧ lhs.shape.getLast? = some last ∧ 0 < last ∧
      t' = { array := some h.next, shape := lhs.shape,
             padded_shape := lhs.shape.dropLast ++ [apply_padding last 8] } := by
  unfold pipevec_tensor_do_scalar_op at heq
  cases hcopy : pipevec_tensor_copy h lhs with
  | ub => rw [hcopy] at heq; exact absurd heq (by simp)
  | error e m => rw [hcopy] at heq; exact absurd heq (by simp)
  | ok pr =>
    obtain ⟨h1, dst⟩ := pr
    rw [hcopy] at heq
    simp only [] at heq
    obtain ⟨src, last, harr, hl, hpos, hdst, hh1⟩ := copy_inv hcopy
    subst hdst
    simp only [] at heq
    cases hpl : lhs.padded_shape.getLast? with
    | none => rw [harr, hl, hpl] at heq; simp at heq
    | some plast =>
      rw [harr, hl, hpl] at heq
      simp only [] at heq
      rw [if_neg (by omega)] at heq
      simp only [CResult.ok.injEq, Prod.mk.injEq] at heq
      exact ⟨src, last, harr, hl, hpos, heq.2.symm⟩

/-- Inversion of a successful inner product. -/
theorem inner_inv {α : Type} [Zero α] [Add α] [Mul α] {h : Heap α}
    {lhs rhs : PipevecTensorPriv} {h' : Heap α} {t' : PipevecTensorPriv}
    (heq : pipevec_tensor_inner_product_tensor h lhs rhs = .ok (h', t')) :
    shape_subset_equal lhs.shape rhs.shape 2 = true ∧
    lhs.shape.getD (lhs.shape.length - 1) 0 = rhs.shape.getD (rhs.shape.length - 2) 0 ∧
    ∃ last, (inner_product_new_shape lhs.shape rhs.shape).getLast? = some last ∧ 0 < last ∧
      t' = { array := some h.next,
             shape := inner_product_new_shape lhs.shape rhs.shape,
             padded_shape := (inner_product_new_shape lhs.shape rhs.shape).dropLast ++
               [apply_padding last 8] } := by
  unfold pipevec_tensor_inner_product_tensor at heq
  by_cases hsub : shape_subset_equal lhs.shape rhs.shape 2
  · rw [if_neg (by simp [hsub])] at heq
    by_cases hdim : lhs.shape.getD (lhs.shape.length - 1) 0 =
        rhs.shape.getD (rhs.shape.length - 2) 0
    · rw [if_neg (by exact fun hn => hn hdim)] at heq
      simp only [] at heq
      cases halloc : pipevec_tensor_alloc_shape h
          (inner_product_new_shape lhs.shape rhs.shape) with
      | none => rw [halloc] at heq; exact absurd heq (by simp)
      | some pr =>
        obtain ⟨h1, nt⟩ := pr
        rw [halloc] at heq
        simp only [] at heq
        obtain ⟨last, hl, hpos, hh1, hnt⟩ := alloc_shape_inv halloc
        subst hnt
        simp only [] at heq
        cases hla : lhs.array with
        | none => rw [hla] at heq; simp at heq
        | some lb =>
          cases hra : rhs.array with
          | none => rw [hla, hra] at heq; simp at heq
          | some rb =>
            rw [hla, hra] at heq
            simp only [] at heq
            simp only [CResult.ok.injEq, Prod.mk.injEq] at heq
            exact ⟨hsub, hdim, last, hl, hpos, heq.2.symm⟩
    · rw [if_pos hdim] at heq
      exact absurd heq (by simp)
  · rw [if_pos (by simp [hsub])] at heq
    exact absurd heq (by simp)



/-- C3. After every successful population - new, set_data, reshape, copy,
map, an elementwise or scalar operation, or an inner product - the stored
padded_shape agrees with the shape on every dimension before the last and its
last entry is a multiple of 8 that is at least the shape's last entry; records
are immutable between operations in the model, so the invariant holds at all
times. -/
theorem C3_padding_invariant {α : Type} [Zero α] [Add α] [Mul α] :
    (∀ (h : Heap α) c s h' t', pipevec_tensor_set_data h c s = .ok (h', t') →
      padded_shape_invariant t') ∧
    (∀ (h : Heap α) s c h' t', pipevec_tensor_new h s c = .ok (h', t') →
      padded_shape_invariant t') ∧
    (∀ (h : Heap α) t s h' t', pipevec_tensor_reshape h t s = .ok (h', t') →
      padded_shape_invariant t') ∧
    (∀ (h : Heap α) t h' t', pipevec_tensor_copy h t = .ok (h', t') →
      padded_shape_invariant t') ∧
    (∀ (h : Heap α) t f h' t', pipevec_tensor_map h t f = .ok (h', t') →
      padded_shape_invariant t') ∧
    (∀ (h : Heap α) a b f h' t', pipevec_tensor_do_elementwise_op h a b f = .ok (h', t') →
      padded_shape_invariant t') ∧
    (∀ (h : Heap α) a x f h' t', pipevec_tensor_do_scalar_op h a x f = .ok (h', t') →
      padded_shape_invariant t') ∧
    (∀ (h : Heap α) a b h' t', pipevec_tensor_inner_product_tensor h a b = .ok (h', t') →
      padded_shape_invariant t') := by
  refine ⟨?_, ?_, ?_, ?_, ?_, ?_, ?_, ?_⟩
  · intro h c s h' t' heq
    obtain ⟨last, hl, _, ht⟩ := set_data_rec heq
    rw [ht]
    exact alloc_rec_invariant _ s last hl
  · intro h s c h' t' heq
    unfold pipevec_tensor_new at heq
    obtain ⟨last, hl, _, ht⟩ := set_data_rec heq
    rw [ht]
    exact alloc_rec_invariant _ s last hl
  · intro h t s h' t' heq
    unfold pipevec_tensor_reshape at heq
    cases hg : pipevec_tensor_get_data h t with
    | none => rw [hg] at heq; exact absurd heq (by simp)
    | some data =>
      rw [hg] at heq
      obtain ⟨last, hl, _, ht⟩ := set_data_rec heq
      rw [ht]
      exact alloc_rec_invariant _ s last hl
  · intro h t h' t' heq
    obtain ⟨src, last, _, hl, _, ht, _⟩ := copy_inv heq
    rw [ht]
    exact alloc_rec_invariant _ t.shape last hl
  · intro h t f h' t' heq
    obtain ⟨src, last, _, hl, _, ht⟩ := map_inv heq
    rw [ht]
    exact alloc_rec_invariant _ t.shape last hl
  · intro h a b f h' t' heq
    obtain ⟨_, src, rsrc, last, _, _, hl, _, ht⟩ := elementwise_inv heq
    rw [ht]
    exact alloc_rec_invariant _ a.shape last hl
  · intro h a x f h' t' heq
    obtain ⟨src, last, _, hl, _, ht⟩ := scalar_inv heq
    rw [ht]
    exact alloc_rec_invariant _ a.shape last hl
  · intro h a b h' t' heq
    obtain ⟨_, _, last, hl, _, ht⟩ := inner_inv heq
    rw [ht]
    exact alloc_rec_invariant _ _ last hl

/-- C3 witness: the record stored by a concrete set_data of shape (2,3) is
(2,8), which satisfies the invariant. -/
theorem C3_padding_invariant_witness :
    padded_shape_invariant { array := some 0, shape := [2, 3], padded_shape := [2, 8] } :=
  (@C3_padding_invariant Int _ _ _).1 heap0 [1, 2, 3, 4, 5, 6] [2, 3] _ _ rfl

/-- C7. On a shape/length mismatch new and set_data do fail with BAD_SHAPE,
but for shape [2,3] with five contents elements the message is the literal
"Shape ] has product 6 which does not match array length 2i": the formatter
prints loop indices and a misplaced bracket instead of the dimension values,
and the %ui directive reports the rank 2, not the contents length 5. -/
theorem C7_set_data_error_message :
    cresult_error (pipevec_tensor_new heap0 [2, 3] ([1, 2, 3, 4, 5] : List Int)) =
      some (.BAD_SHAPE, set_data_msg_observed) ∧
    cresult_error (pipevec_tensor_set_data heap0 ([1, 2, 3, 4, 5] : List Int) [2, 3]) =
      some (.BAD_SHAPE, set_data_msg_observed) ∧
    format_size_t_array [2, 3] = some rbracket_str ∧
    set_data_msg [2, 3] = set_data_msg_observed :=
  ⟨by decide, by decide, by decide, by decide⟩

theorem dropLast_dropLast_getElem? (l : List Nat) (i : Nat) :
    l.dropLast.dropLast[i]? = if i < l.length - 2 then l[i]? else none := by
  rw [List.getElem?_dropLast, List.getElem?_dropLast, List.length_dropLast]
  by_cases h1 : i < l.length - 2
  · rw [if_pos (show i < l.length - 1 - 1 by omega), if_pos (by omega), if_pos h1]
  · rw [if_neg (show ¬ i < l.length - 1 - 1 by omega), if_neg h1]

theorem getD_eq_getLast {l : List Nat} {x : Nat} (h : l.getLast? = some x) :
    l.getD (l.length - 1) 0 = x := by
  rw [List.getD_eq_getElem?_getD, ← List.getLast?_eq_getElem?, h]
  rfl

/-- The rank-2 subset check of the source agrees with equality of the batch
axes (all axes except the trailing two) whenever both ranks are at least 2. -/
theorem shape_subset_equal_two_iff {l r : List Nat} (h2l : 2 ≤ l.length)
    (h2r : 2 ≤ r.length) :
    shape_subset_equal l r 2 = true ↔ l.dropLast.dropLast = r.dropLast.dropLast := by
  unfold shape_subset_equal
  constructor
  · intro hb
    by_cases hlen : l.length ≠ r.length
    · rw [if_pos hlen] at hb
      exact absurd hb (by simp)
    · rw [if_neg hlen, if_neg (by omega)] at hb
      simp only [List.all_eq_true, List.mem_range, decide_eq_true_eq] at hb
      apply List.ext_getElem?
      intro i
      rw [dropLast_dropLast_getElem?, dropLast_dropLast_getElem?]
      by_cases hi : i < l.length - 2
      · rw [if_pos hi, if_pos (by omega)]
        have hv := hb i hi
        rw [List.getD_eq_getElem?_getD, List.getD_eq_getElem?_getD] at hv
        cases hla : l[i]? with
        | none =>
          have := List.getElem?_eq_none_iff.mp hla
          omega
        | some a =>
          cases hra : r[i]? with
          | none =>
            have := List.getElem?_eq_none_iff.mp hra
            omega
          | some b =>
            rw [hla, hra] at hv
            simp only [Option.getD_some] at hv
            rw [hv]
      · rw [if_neg hi, if_neg (by omega)]
  · intro hdd
    have hlen2 : l.dropLast.dropLast.length = r.dropLast.dropLast.length := by rw [hdd]
    rw [List.length_dropLast, List.length_dropLast, List.length_dropLast,
      List.length_dropLast] at hlen2
    have hlen : l.length = r.length := by omega
    rw [if_neg (by omega), if_neg (by omega)]
    simp only [List.all_eq_true, List.mem_range, decide_eq_true_eq]
    intro i hi
    have hgi : l.dropLast.dropLast[i]? = r.dropLast.dropLast[i]? := by rw [hdd]
    rw [dropLast_dropLast_getElem?, dropLast_dropLast_getElem?, if_pos hi,
      if_pos (by omega)] at hgi
    rw [List.getD_eq_getElem?_getD, List.getD_eq_getElem?_getD, hgi]



theorem getLast?_set_of_index {l : List Nat} {i : Nat} (hi : i = l.length - 1)
    (h0 : 0 < l.length) (v : Nat) : (l.set i v).getLast? = some v := by
  rw [List.getLast?_eq_getElem?, List.length_set, List.getElem?_set, if_pos (by omega),
    if_pos (by omega)]

/-- C8. For populated tensors whose ranks are at least 2, the inner product
fails with BAD_SHAPE exactly when the batch axes differ or, the batch axes
being equal, when the lhs last axis differs from the rhs second-to-last axis
(that message does report the two mismatched contraction dimensions, printed
directly); when neither precondition is violated it produces a tensor, and
the failing cases return before any allocation or loop runs.  But the
leading-shape message does not report the shapes' dimension values: both
shapes pass through the broken formatter, so for shapes [2,3] and [2,2,3]
the whole text is a stray bracket, the word and, an empty pair of brackets
and the fixed suffix - it names neither shape. -/
theorem C8_inner_product_errors {α : Type} [Zero α] [Add α] [Mul α]
    (h : Heap α) (lhs rhs : PipevecTensorPriv)
    (hwl : WellFormed h lhs) (hwr : WellFormed h rhs)
    (hr2l : 2 ≤ lhs.shape.length) (hr2r : 2 ≤ rhs.shape.length) :
    (lhs.shape.dropLast.dropLast ≠ rhs.shape.dropLast.dropLast →
      pipevec_tensor_inner_product_tensor h lhs rhs =
        .error .BAD_SHAPE (inner_product_leading_msg lhs.shape rhs.shape)) ∧
    (lhs.shape.dropLast.dropLast = rhs.shape.dropLast.dropLast →
      lhs.shape.getD (lhs.shape.length - 1) 0 ≠ rhs.shape.getD (rhs.shape.length - 2) 0 →
      pipevec_tensor_inner_product_tensor h lhs rhs =
        .error .BAD_SHAPE (inner_product_dim_msg lhs.shape rhs.shape
          (lhs.shape.getD (lhs.shape.length - 1) 0)
          (rhs.shape.getD (rhs.shape.length - 2) 0))) ∧
    (lhs.shape.dropLast.dropLast = rhs.shape.dropLast.dropLast →
      lhs.shape.getD (lhs.shape.length - 1) 0 = rhs.shape.getD (rhs.shape.length - 2) 0 →
      ∃ h' t', pipevec_tensor_inner_product_tensor h lhs rhs = .ok (h', t')) ∧
    inner_product_leading_msg [2, 3] [2, 2, 3] = inner_product_leading_msg_observed := by
  refine ⟨?_, ?_, ?_, by decide⟩
  · intro hbd
    unfold pipevec_tensor_inner_product_tensor
    rw [if_pos (fun htrue => hbd ((shape_subset_equal_two_iff hr2l hr2r).mp htrue))]
  · intro hbd hdim
    unfold pipevec_tensor_inner_product_tensor
    rw [if_neg (fun hn => hn ((shape_subset_equal_two_iff hr2l hr2r).mpr hbd)),
      if_pos hdim]
  · intro hbd hdim
    obtain ⟨lb, llast, hla, hll, hlpos, hlpad, hlext⟩ := hwl
    obtain ⟨rb, rlast, hra, hrl, hrpos, hrpad, hrext⟩ := hwr
    unfold pipevec_tensor_inner_product_tensor
    rw [if_neg (fun hn => hn ((shape_subset_equal_two_iff hr2l hr2r).mpr hbd)),
      if_neg (fun hn => hn hdim)]
    simp only []
    have hns : (inner_product_new_shape lhs.shape rhs.shape).getLast? = some rlast := by
      unfold inner_product_new_shape
      rw [getD_eq_getLast hrl]
      exact getLast?_set_of_index (by rw [List.length_set]) (by rw [List.length_set]; omega)
        rlast
    rw [alloc_shape_eq h _ rlast hns hrpos]
    simp only []
    rw [hla, hra]
    simp only []
    exact ⟨_, _, rfl⟩

/-- C8 witness: two concrete populated tensors of shapes (2,3) and (2,2,3)
have differing batch axes, so the inner product fails with the leading-shape
message - whose literal text names neither shape. -/
theorem C8_inner_product_errors_witness :
    (pipevec_tensor_inner_product_tensor
        ({ mem := fun _ => (0 : Int), next := 1000 } : Heap Int)
        { array := some 0, shape := [2, 3], padded_shape := [2, 8] }
        { array := some 128, shape := [2, 2, 3], padded_shape := [2, 2, 8] } =
      .error .BAD_SHAPE (inner_product_leading_msg [2, 3] [2, 2, 3])) ∧
    inner_product_leading_msg [2, 3] [2, 2, 3] = inner_product_leading_msg_observed :=
  ⟨(C8_inner_product_errors { mem := fun _ => (0 : Int), next := 1000 }
    { array := some 0, shape := [2, 3], padded_shape := [2, 8] }
    { array := some 128, shape := [2, 2, 3], padded_shape := [2, 2, 8] }
    ⟨0, 3, rfl, by decide, by decide, by decide, by decide⟩
    ⟨128, 3, rfl, by decide, by decide, by decide, by decide⟩
    (by decide) (by decide)).1 (by decide),
   (C8_inner_product_errors { mem := fun _ => (0 : Int), next := 1000 }
    { array := some 0, shape := [2, 3], padded_shape := [2, 8] }
    { array := some 128, shape := [2, 2, 3], padded_shape := [2, 2, 8] }
    ⟨0, 3, rfl, by decide, by decide, by decide, by decide⟩
    ⟨128, 3, rfl, by decide, by decide, by decide, by decide⟩
    (by decide) (by decide)).2.2.2⟩

set_option maxHeartbeats 2000000 in
/-- C4. The spec's rank-2 example holds: (2,3) x (3,2) gives [[58,64],[139,154]]
(one batch, so the batch-offset term is zero).  But with two batches the code
offsets both operand buffers by batch_index times the OUTPUT tensor's padded
block size: for lhs (2,1,2) = [[[1,2]],[[3,4]]] and rhs (2,2,1) =
[[[10],[20]],[[30],[40]]], batch 1 reads rhs at offsets 8 and 16 - the cells
holding 20 and 30 - instead of its true batch-1 block, yielding 3*20 + 4*30
= 180 where the claim's formula gives 3*30 + 4*40 = 250. -/
theorem C4_inner_product_batch_bug :
    inner_product_example = some [58, 64, 139, 154] ∧
    inner_product_batched_example = some [50, 180] ∧
    ((1 : Int) * 10 + 2 * 20 = 50 ∧ (3 : Int) * 30 + 4 * 40 = 250) ∧
    some [50, 180] ≠ some ([50, 250] : List Int) :=
  ⟨by decide, by decide, ⟨by decide, by decide⟩, by decide⟩

/-- A successful set_data leaves a well-formed record. -/
theorem set_data_wf {α : Type} [Zero α] {h : Heap α} {c : List α} {s : List Nat}
    {h' : Heap α} {t' : PipevecTensorPriv}
    (heq : pipevec_tensor_set_data h c s = .ok (h', t')) : WellFormed h' t' := by
  obtain ⟨hlen, last, hl, hpos⟩ := set_data_inv heq
  obtain ⟨mem1, heq2, _⟩ := set_data_char h c s last hl hpos hlen
  rw [heq] at heq2
  simp only [CResult.ok.injEq, Prod.mk.injEq] at heq2
  obtain ⟨hh, ht⟩ := heq2
  subst ht
  refine ⟨h.next, last, rfl, hl, hpos, rfl, ?_⟩
  rw [hh]

/-- Well-formedness is monotone in the allocator frontier. -/
theorem wf_mono {α : Type} {h h2 : Heap α} {t : PipevecTensorPriv}
    (hwf : WellFormed h t) (hle : h.next ≤ h2.next) : WellFormed h2 t := by
  obtain ⟨b, l, f1, f2, f3, f4, f5⟩ := hwf
  exact ⟨b, l, f1, f2, f3, f4, by omega⟩

/-- C10. A freshly constructed, never-populated tensor has an empty shape and
a NULL buffer, and every read or derive path that indexes the shape at rank-1
or dereferences the buffer reaches the undefined branch on it (get_data,
copy, map, reshape); on any well-formed populated tensor get_data succeeds,
and a successful set_data is exactly what establishes well-formedness. -/
theorem C10_population_precondition {α : Type} [Zero α] :
    (pipevec_tensor_init.shape = [] ∧ pipevec_tensor_init.array = none) ∧
    (∀ h : Heap α, pipevec_tensor_get_data h pipevec_tensor_init = none) ∧
    (∀ h : Heap α, pipevec_tensor_copy h pipevec_tensor_init = .ub) ∧
    (∀ (h : Heap α) (f : α → List Nat → α),
      pipevec_tensor_map h pipevec_tensor_init f = .ub) ∧
    (∀ (h : Heap α) (s : List Nat),
      pipevec_tensor_reshape h pipevec_tensor_init s = .ub) ∧
    (∀ (h : Heap α) (t : PipevecTensorPriv), WellFormed h t →
      (pipevec_tensor_get_data h t).isSome = true) ∧
    (∀ (h : Heap α) (c : List α) (s : List Nat) h' t',
      pipevec_tensor_set_data h c s = .ok (h', t') → WellFormed h' t') := by
  have hA : pipevec_tensor_init.shape = ([] : List Nat) ∧
      pipevec_tensor_init.array = none := ⟨rfl, rfl⟩
  have hB : ∀ h : Heap α, pipevec_tensor_get_data h pipevec_tensor_init = none :=
    fun h => rfl
  have hC : ∀ h : Heap α, pipevec_tensor_copy h pipevec_tensor_init = .ub :=
    fun h => rfl
  have hD : ∀ (h : Heap α) (f : α → List Nat → α),
      pipevec_tensor_map h pipevec_tensor_init f = .ub := fun h f => rfl
  have hE : ∀ (h : Heap α) (s : List Nat),
      pipevec_tensor_reshape h pipevec_tensor_init s = .ub := fun h s => rfl
  have hF : ∀ (h : Heap α) (t : PipevecTensorPriv), WellFormed h t →
      (pipevec_tensor_get_data h t).isSome = true := by
    intro h t hwf
    obtain ⟨b, l, ha, hl, hpos, _, _⟩ := hwf
    rw [get_data_char h t b l ha hl hpos]
    rfl
  have hG : ∀ (h : Heap α) (c : List α) (s : List Nat) h' t',
      pipevec_tensor_set_data h c s = .ok (h', t') → WellFormed h' t' :=
    fun h c s h' t' heq => set_data_wf heq
  exact ⟨hA, hB, hC, hD, hE, hF, hG⟩

/-- C10 witness: get_data succeeds on a concrete well-formed tensor. -/
theorem C10_population_precondition_witness :
    (pipevec_tensor_get_data ({ mem := fun _ => (0 : Int), next := 128 } : Heap Int)
      { array := some 0, shape := [2, 3], padded_shape := [2, 8] }).isSome = true :=
  (@C10_population_precondition Int _).2.2.2.2.2.1
    { mem := fun _ => (0 : Int), next := 128 }
    { array := some 0, shape := [2, 3], padded_shape := [2, 8] }
    ⟨0, 3, rfl, by decide, by decide, by decide, by decide⟩

theorem memcpy_char {α : Type} (m : Mem α) (dst src n : Nat) (hd : src + n ≤ dst) (p : Nat) :
    memcpy m dst src n p = if dst ≤ p ∧ p < dst + n then m (src + (p - dst)) else m p := by
  unfold memcpy
  rw [List.range_eq_range']
  have hch := foldl_store_char (fun m k => store m (dst + k) (m (src + k)))
    (fun m k => m (src + k)) dst dst (Nat.le_refl _) (fun m k => rfl) n 0 m
    (fun j m m' h1 h2 hq => congrArg (fun x => x) (hq (src + j) (Or.inl (by omega)))) p
  rw [hch]
  by_cases hc : dst ≤ p ∧ p < dst + n
  · rw [if_pos (by omega), if_pos hc]
  · rw [if_neg (by omega), if_neg hc]

theorem memcpy_frame {α : Type} (m : Mem α) (dst src n : Nat) (p : Nat) (hp : p < dst) :
    memcpy m dst src n p = m p := by
  unfold memcpy
  exact foldl_store_frame _ dst
    (fun m k q hq => store_ne m (dst + k) (m (src + k)) (by omega)) _ m p hp

theorem padded_product_eq {shape : List Nat} {last : Nat}
    (hl : shape.getLast? = some last) (hpos : 0 < last) :
    array_size_t_product (shape.dropLast ++ [apply_padding last 8]) =
      array_size_t_product shape / last * apply_padding last 8 := by
  rw [array_size_t_product_concat, product_decomp hl, Nat.mul_div_cancel _ hpos]

/-- Characterization of a successful copy of a tensor whose descriptor fields
are known: the buffer of the new tensor is a verbatim memcpy of the source's
padded buffer. -/
theorem copy_char {α : Type} (h : Heap α) (t : PipevecTensorPriv)
    (src last : Nat) (ha : t.array = some src) (hl : t.shape.getLast? = some last)
    (hpos : 0 < last)
    (hpad : t.padded_shape = t.shape.dropLast ++ [apply_padding last 8]) :
    pipevec_tensor_copy h t =
      .ok ({ mem := memcpy h.mem h.next src
               (array_size_t_product t.shape / last * apply_padding last 8),
             next := h.next + 8 * (array_size_t_product t.shape / last * apply_padding last 8) },
           { array := some h.next, shape := t.shape,
             padded_shape := t.shape.dropLast ++ [apply_padding last 8] }) := by
  unfold pipevec_tensor_copy pipevec_tensor_set_data_aligned_padded
  rw [ha]
  simp only []
  rw [alloc_shape_eq h t.shape last hl hpos]
  simp only []
  rw [hpad, padded_product_eq hl hpos]

/-- Characterization of a successful map on a well-formed tensor: every
logical cell of the result holds func of the source cell and the row-major
location of its linear index, every padding cell is copied unchanged from the
source, and memory below the old frontier is untouched. -/
theorem map_char {α : Type} (h : Heap α) (t : PipevecTensorPriv)
    (func : α → List Nat → α) (src last : Nat)
    (ha : t.array = some src) (hl : t.shape.getLast? = some last) (hpos : 0 < last)
    (hpad : t.padded_shape = t.shape.dropLast ++ [apply_padding last 8])
    (hext : src + 8 * (array_size_t_product t.shape / last * apply_padding last 8) ≤ h.next) :
    ∃ mem2,
      pipevec_tensor_map h t func =
        .ok ({ mem := mem2,
               next := h.next + 8 * (array_size_t_product t.shape / last * apply_padding last 8) },
             { array := some h.next, shape := t.shape,
               padded_shape := t.shape.dropLast ++ [apply_padding last 8] }) ∧
      (∀ i j, i < array_size_t_product t.shape / last → j < last →
        mem2 (h.next + i * apply_padding last 8 + j) =
          func (h.mem (src + (i * apply_padding last 8 + j)))
            (set_location t.shape (i * last + j))) ∧
      (∀ i j, i < array_size_t_product t.shape / last → last ≤ j →
        j < apply_padding last 8 →
        mem2 (h.next + i * apply_padding last 8 + j) =
          h.mem (src + (i * apply_padding last 8 + j))) ∧
      (∀ p, p < h.next → mem2 p = h.mem p) := by
  have hwle : last ≤ apply_padding last 8 := apply_padding_le last
  have hpadpos : 0 < apply_padding last 8 := by omega
  have hcpy : src + array_size_t_product t.shape / last * apply_padding last 8 ≤ h.next := by
    omega
  unfold pipevec_tensor_map
  rw [copy_char h t src last ha hl hpos hpad]
  simp only []
  rw [hl, List.getLast?_concat]
  simp only []
  rw [if_neg (by omega)]
  refine ⟨_, rfl, ?rest⟩
  case rest =>
  have HROW : ∀ (m : Mem α) (i p : Nat), 0 ≤ i →
      i < 0 + array_size_t_product t.shape / last →
      (fun m i => List.foldl (fun m j => store m (h.next + i * apply_padding last 8 + j)
          (func (m (h.next + i * apply_padding last 8 + j))
            (set_location t.shape (i * last + j))))
        m (List.range last)) m i p =
      if h.next + i * apply_padding last 8 ≤ p ∧
          p < h.next + i * apply_padding last 8 + last
      then (fun i j (m : Mem α) => func (m (h.next + i * apply_padding last 8 + j))
             (set_location t.shape (i * last + j))) i
             (p - (h.next + i * apply_padding last 8)) m
      else m p := by
    intro m i q _ _
    simp only []
    have H1 := foldl_store_char
      (fun m j => store m (h.next + i * apply_padding last 8 + j)
        (func (m (h.next + i * apply_padding last 8 + j))
          (set_location t.shape (i * last + j))))
      (fun m j => func (m (h.next + i * apply_padding last 8 + j))
        (set_location t.shape (i * last + j)))
      (h.next + i * apply_padding last 8) h.next (by omega)
      (fun m j => rfl)
      last 0 m
      (fun j m m' _ _ hq => by
        simp only []
        rw [hq (h.next + i * apply_padding last 8 + j) (Or.inr rfl)]) q
    rw [← List.range_eq_range'] at H1
    rw [H1]
    by_cases hc : h.next + i * apply_padding last 8 ≤ q ∧
        q < h.next + i * apply_padding last 8 + last
    · rw [if_pos (by omega), if_pos hc]
    · rw [if_neg (by omega), if_neg hc]
  have HX := rows_foldl_char
    (fun m i => List.foldl (fun m j => store m (h.next + i * apply_padding last 8 + j)
        (func (m (h.next + i * apply_padding last 8 + j))
          (set_location t.shape (i * last + j))))
      m (List.range last))
    (fun i j (m : Mem α) => func (m (h.next + i * apply_padding last 8 + j))
      (set_location t.shape (i * last + j)))
    h.next (apply_padding last 8) last h.next
    (Nat.le_refl _) hwle hpadpos
    (array_size_t_product t.shape / last) 0
    (memcpy h.mem h.next src (array_size_t_product t.shape / last * apply_padding last 8))
    HROW
    (fun i j m m' _ _ _ hq => by
      simp only []
      rw [hq (h.next + i * apply_padding last 8 + j) (Or.inr rfl)])
  simp only [← List.range_eq_range'] at HX
  simp only [Nat.zero_mul, Nat.add_zero, Nat.zero_add] at HX
  refine ⟨?_, ?_, ?_⟩
  · intro i j hi hj
    rw [HX (h.next + i * apply_padding last 8 + j)]
    have hij : i * apply_padding last 8 + j <
        array_size_t_product t.shape / last * apply_padding last 8 := by
      have hmul : (i + 1) * apply_padding last 8 ≤
          array_size_t_product t.shape / last * apply_padding last 8 :=
        Nat.mul_le_mul_right _ (by omega)
      rw [Nat.add_mul, Nat.one_mul] at hmul
      omega
    have hoff : h.next + i * apply_padding last 8 + j - h.next =
        i * apply_padding last 8 + j := by omega
    have hd := div_mod_decomp (apply_padding last 8) i j (by omega)
    rw [hoff, hd.1, hd.2, if_pos ⟨by omega, by omega, by omega⟩]
    have hmc := memcpy_char h.mem h.next src
      (array_size_t_product t.shape / last * apply_padding last 8) hcpy
      (h.next + i * apply_padding last 8 + j)
    rw [if_pos ⟨by omega, by omega⟩] at hmc
    rw [hmc, hoff]
  · intro i j hi hj1 hj2
    rw [HX (h.next + i * apply_padding last 8 + j)]
    have hij : i * apply_padding last 8 + j <
        array_size_t_product t.shape / last * apply_padding last 8 := by
      have hmul : (i + 1) * apply_padding last 8 ≤
          array_size_t_product t.shape / last * apply_padding last 8 :=
        Nat.mul_le_mul_right _ (by omega)
      rw [Nat.add_mul, Nat.one_mul] at hmul
      omega
    have hoff : h.next + i * apply_padding last 8 + j - h.next =
        i * apply_padding last 8 + j := by omega
    have hd := div_mod_decomp (apply_padding last 8) i j (by omega)
    rw [hoff, hd.2]
    rw [if_neg (by omega)]
    have hmc := memcpy_char h.mem h.next src
      (array_size_t_product t.shape / last * apply_padding last 8) hcpy
      (h.next + i * apply_padding last 8 + j)
    rw [if_pos ⟨by omega, by omega⟩] at hmc
    rw [hmc, hoff]
  · intro p hp
    rw [HX p, if_neg (by omega)]
    exact memcpy_frame h.mem h.next src _ p hp



set_option maxHeartbeats 2000000 in
/-- C5. For every populated (well-formed) tensor and callback, map succeeds
and visits exactly the logical elements: the result element at linear
position k equals func applied to the source value at k and the row-major
unranking of k against the shape (as computed by set_location); padding cells
are never passed to func and are copied unchanged from the source.  The
spec's concrete example also holds: mapping v + 10*loc0 + loc1 over a zero
(2,3) tensor yields [0,1,2,10,11,12]. -/
theorem C5_map_coordinates {α : Type} :
    (∀ (h : Heap α) (t : PipevecTensorPriv) (func : α → List Nat → α) (d : α),
      WellFormed h t →
      ∃ h' t', pipevec_tensor_map h t func = .ok (h', t') ∧
        t'.shape = t.shape ∧
        (∃ ls ld, pipevec_tensor_get_data h t = some ls ∧
          pipevec_tensor_get_data h' t' = some ld ∧
          ld.length = ls.length ∧
          (∀ k, k < ls.length →
            ld.getD k d = func (ls.getD k d) (set_location t.shape k))) ∧
        (∃ base src last, t'.array = some base ∧ t.array = some src ∧
          t.shape.getLast? = some last ∧
          (∀ i j, i < array_size_t_product t.shape / last → last ≤ j →
            j < apply_padding last 8 →
            h'.mem (base + i * apply_padding last 8 + j) =
              h.mem (src + (i * apply_padding last 8 + j))))) ∧
    map_example = some [0, 1, 2, 10, 11, 12] := by
  constructor
  · intro h t func d hwf
    obtain ⟨src, last, ha, hl, hpos, hpad, hext⟩ := hwf
    obtain ⟨mem2, heq, hlog, hpadc, hframe⟩ := map_char h t func src last ha hl hpos hpad hext
    refine ⟨_, _, heq, rfl, ?_, ?_⟩
    · rw [get_data_char h t src last ha hl hpos,
        get_data_char
          { mem := mem2,
            next := h.next + 8 * (array_size_t_product t.shape / last * apply_padding last 8) }
          { array := some h.next, shape := t.shape,
            padded_shape := t.shape.dropLast ++ [apply_padding last 8] }
          h.next last rfl hl hpos]
      simp only []
      rw [flatMap_range_chunk
        (fun i j => mem2 (h.next + i * apply_padding last 8 + j)) last
        (array_size_t_product t.shape / last)]
      rw [flatMap_range_chunk
        (fun i j => h.mem (src + i * apply_padding last 8 + j)) last
        (array_size_t_product t.shape / last)]
      refine ⟨_, _, rfl, rfl, by simp, ?_⟩
      intro k hk
      rw [List.length_map, List.length_range] at hk
      rw [getD_map_range _ _ _ hk, getD_map_range _ _ _ hk]
      have hdb : k / last < array_size_t_product t.shape / last := by
        rw [Nat.div_lt_iff_lt_mul hpos]
        omega
      have hmb : k % last < last := Nat.mod_lt _ hpos
      rw [hlog (k / last) (k % last) hdb hmb]
      have h1 : k / last * last + k % last = k := by
        have := Nat.div_add_mod k last
        have hc : k / last * last = last * (k / last) := Nat.mul_comm _ _
        omega
      have h2 : src + (k / last * apply_padding last 8 + k % last) =
          src + k / last * apply_padding last 8 + k % last := by omega
      rw [h1, h2]
    · refine ⟨h.next, src, last, rfl, ha, hl, ?_⟩
      intro i j hi hj1 hj2
      exact hpadc i j hi hj1 hj2
  · decide

/-- C5 witness: the universal statement applied to a concrete well-formed
one-row tensor. -/
theorem C5_map_coordinates_witness :
    ∃ h' t',
      pipevec_tensor_map ({ mem := fun _ => (0 : Int), next := 64 } : Heap Int)
        { array := some 0, shape := [3], padded_shape := [8] } (fun v _ => v) = .ok (h', t') ∧
      t'.shape = [3] ∧
      (∃ ls ld, pipevec_tensor_get_data { mem := fun _ => (0 : Int), next := 64 }
          { array := some 0, shape := [3], padded_shape := [8] } = some ls ∧
        pipevec_tensor_get_data h' t' = some ld ∧
        ld.length = ls.length ∧
        (∀ k, k < ls.length →
          ld.getD k (0 : Int) = (fun (v : Int) (_ : List Nat) => v) (ls.getD k 0)
            (set_location [3] k))) ∧
      (∃ base src last,
        t'.array = some base ∧
        ({ array := some 0, shape := [3], padded_shape := [8] } : PipevecTensorPriv).array =
          some src ∧
        ([3] : List Nat).getLast? = some last ∧
        (∀ i j, i < array_size_t_product [3] / last → last ≤ j →
          j < apply_padding last 8 →
          h'.mem (base + i * apply_padding last 8 + j) =
            ({ mem := fun _ => (0 : Int), next := 64 } : Heap Int).mem
              (src + (i * apply_padding last 8 + j)))) :=
  (C5_map_coordinates).1 { mem := fun _ => (0 : Int), next := 64 }
    { array := some 0, shape := [3], padded_shape := [8] } (fun v _ => v) 0
    ⟨0, 3, rfl, by decide, by decide, by decide, by decide⟩


/-- Characterization of a successful elementwise operation on well-formed,
equal-shaped tensors: every logical cell of the result is func of the lhs and
rhs cells at the identical padded offset, and memory below the old frontier
is untouched. -/
theorem elementwise_char {α : Type} (h : Heap α) (lhs rhs : PipevecTensorPriv)
    (func : α → α → α) (lb rb last : Nat)
    (hla : lhs.array = some lb) (hra : rhs.array = some rb)
    (hl : lhs.shape.getLast? = some last) (hpos : 0 < last)
    (hpad : lhs.padded_shape = lhs.shape.dropLast ++ [apply_padding last 8])
    (hsh : shapes_equal lhs.shape rhs.shape = true)
    (hext : lb + 8 * (array_size_t_product lhs.shape / last * apply_padding last 8) ≤ h.next)
    (hrext : rb + array_size_t_product lhs.shape / last * apply_padding last 8 ≤ h.next) :
    ∃ mem2,
      pipevec_tensor_do_elementwise_op h lhs rhs func =
        .ok ({ mem := mem2,
               next := h.next + 8 * (array_size_t_product lhs.shape / last * apply_padding last 8) },
             { array := some h.next, shape := lhs.shape,
               padded_shape := lhs.shape.dropLast ++ [apply_padding last 8] }) ∧
      (∀ i j, i < array_size_t_product lhs.shape / last → j < last →
        mem2 (h.next + i * apply_padding last 8 + j) =
          func (h.mem (lb + (i * apply_padding last 8 + j)))
            (h.mem (rb + (i * apply_padding last 8 + j)))) ∧
      (∀ p, p < h.next → mem2 p = h.mem p) := by
  have hwle : last ≤ apply_padding last 8 := apply_padding_le last
  have hpadpos : 0 < apply_padding last 8 := by omega
  have hcpy : lb + array_size_t_product lhs.shape / last * apply_padding last 8 ≤ h.next := by
    omega
  have hijlt : ∀ i j, i < array_size_t_product lhs.shape / last → j < apply_padding last 8 →
      i * apply_padding last 8 + j <
        array_size_t_product lhs.shape / last * apply_padding last 8 := by
    intro i j hi hj
    have hmul : (i + 1) * apply_padding last 8 ≤
        array_size_t_product lhs.shape / last * apply_padding last 8 :=
      Nat.mul_le_mul_right _ (by omega)
    rw [Nat.add_mul, Nat.one_mul] at hmul
    omega
  unfold pipevec_tensor_do_elementwise_op
  rw [if_neg (by simp [hsh])]
  rw [copy_char h lhs lb last hla hl hpos hpad]
  simp only []
  rw [hla, hra, hl, hpad, List.getLast?_concat]
  simp only []
  rw [if_neg (by omega)]
  refine ⟨_, rfl, ?rest⟩
  case rest =>
  have HROW : ∀ (m : Mem α) (i p : Nat), 0 ≤ i →
      i < 0 + array_size_t_product lhs.shape / last →
      (fun m i => List.foldl (fun m j => store m (h.next + i * apply_padding last 8 + j)
          (func (m (lb + (i * apply_padding last 8 + j)))
            (m (rb + (i * apply_padding last 8 + j)))))
        m (List.range last)) m i p =
      if h.next + i * apply_padding last 8 ≤ p ∧
          p < h.next + i * apply_padding last 8 + last
      then (fun i j (m : Mem α) => func (m (lb + (i * apply_padding last 8 + j)))
             (m (rb + (i * apply_padding last 8 + j)))) i
             (p - (h.next + i * apply_padding last 8)) m
      else m p := by
    intro m i q h0i hi
    simp only []
    have H1 := foldl_store_char
      (fun m j => store m (h.next + i * apply_padding last 8 + j)
        (func (m (lb + (i * apply_padding last 8 + j)))
          (m (rb + (i * apply_padding last 8 + j)))))
      (fun m j => func (m (lb + (i * apply_padding last 8 + j)))
        (m (rb + (i * apply_padding last 8 + j))))
      (h.next + i * apply_padding last 8) h.next (by omega)
      (fun m j => rfl)
      last 0 m
      (fun j m m' _ hj hq => by
        simp only []
        have hb1 := hijlt i j (by omega) (by omega)
        rw [hq (lb + (i * apply_padding last 8 + j)) (Or.inl (by omega)),
          hq (rb + (i * apply_padding last 8 + j)) (Or.inl (by omega))]) q
    rw [← List.range_eq_range'] at H1
    rw [H1]
    by_cases hc : h.next + i * apply_padding last 8 ≤ q ∧
        q < h.next + i * apply_padding last 8 + last
    · rw [if_pos (by omega), if_pos hc]
    · rw [if_neg (by omega), if_neg hc]
  have HX := rows_foldl_char
    (fun m i => List.foldl (fun m j => store m (h.next + i * apply_padding last 8 + j)
        (func (m (lb + (i * apply_padding last 8 + j)))
          (m (rb + (i * apply_padding last 8 + j)))))
      m (List.range last))
    (fun i j (m : Mem α) => func (m (lb + (i * apply_padding last 8 + j)))
      (m (rb + (i * apply_padding last 8 + j))))
    h.next (apply_padding last 8) last h.next
    (Nat.le_refl _) hwle hpadpos
    (array_size_t_product lhs.shape / last) 0
    (memcpy h.mem h.next lb (array_size_t_product lhs.shape / last * apply_padding last 8))
    HROW
    (fun i j m m' hi0 hi hj hq => by
      simp only []
      have hb1 := hijlt i j (by omega) (by omega)
      rw [hq (lb + (i * apply_padding last 8 + j)) (Or.inl (by omega)),
        hq (rb + (i * apply_padding last 8 + j)) (Or.inl (by omega))])
  simp only [← List.range_eq_range'] at HX
  simp only [Nat.zero_mul, Nat.add_zero, Nat.zero_add] at HX
  refine ⟨?_, ?_⟩
  · intro i j hi hj
    rw [HX (h.next + i * apply_padding last 8 + j)]
    have hij : i * apply_padding last 8 + j <
        array_size_t_product lhs.shape / last * apply_padding last 8 :=
      hijlt i j hi (by omega)
    have hoff : h.next + i * apply_padding last 8 + j - h.next =
        i * apply_padding last 8 + j := by omega
    have hd := div_mod_decomp (apply_padding last 8) i j (by omega)
    rw [hoff, hd.1, hd.2, if_pos ⟨by omega, by omega, by omega⟩]
    have hm1 := memcpy_char h.mem h.next lb
      (array_size_t_product lhs.shape / last * apply_padding last 8) hcpy
      (lb + (i * apply_padding last 8 + j))
    rw [if_neg (by omega)] at hm1
    have hm2 := memcpy_char h.mem h.next lb
      (array_size_t_product lhs.shape / last * apply_padding last 8) hcpy
      (rb + (i * apply_padding last 8 + j))
    rw [if_neg (by omega)] at hm2
    rw [hm1, hm2]
  · intro p hp
    rw [HX p, if_neg (by omega)]
    exact memcpy_frame h.mem h.next lb _ p hp

theorem shapes_equal_self (s : List Nat) : shapes_equal s s = true := by
  simp [shapes_equal, shape_subset_equal]

/-- Correctness of do_elementwise_op on two well-formed tensors of equal
shape: it succeeds and the data of the result is the pointwise func of the
operands' data. -/
theorem elementwise_correct {α : Type} (h : Heap α) (a b : PipevecTensorPriv)
    (func : α → α → α) (d : α) (hwa : WellFormed h a) (hwb : WellFormed h b)
    (hsh : a.shape = b.shape) :
    ∃ h' c, pipevec_tensor_do_elementwise_op h a b func = .ok (h', c) ∧
      c.shape = a.shape ∧
      ∃ la lb lc, pipevec_tensor_get_data h a = some la ∧
        pipevec_tensor_get_data h b = some lb ∧
        pipevec_tensor_get_data h' c = some lc ∧
        lc.length = la.length ∧ lb.length = la.length ∧
        ∀ k, k < la.length → lc.getD k d = func (la.getD k d) (lb.getD k d) := by
  obtain ⟨ab, last, ha, hl, hpos, hpad, hext⟩ := hwa
  obtain ⟨rb, last2, hrb, hl2, hpos2, hpad2, hext2⟩ := hwb
  have hl2a : a.shape.getLast? = some last2 := by rw [hsh]; exact hl2
  have hlast : last2 = last := by
    rw [hl] at hl2a
    exact (Option.some_inj.mp hl2a).symm
  have hlb : b.shape.getLast? = some last := by rw [← hlast]; exact hl2
  have hprodb : array_size_t_product b.shape = array_size_t_product a.shape := by
    rw [hsh]
  have hrext : rb + array_size_t_product a.shape / last * apply_padding last 8 ≤ h.next := by
    rw [hlast, hprodb] at hext2
    omega
  have hshb : shapes_equal a.shape b.shape = true := by
    rw [hsh]; exact shapes_equal_self _
  obtain ⟨mem2, heq, hlog, hframe⟩ :=
    elementwise_char h a b func ab rb last ha hrb hl hpos hpad hshb hext hrext
  refine ⟨_, _, heq, rfl, ?_⟩
  rw [get_data_char h a ab last ha hl hpos,
    get_data_char h b rb last hrb hlb hpos,
    get_data_char
      { mem := mem2,
        next := h.next + 8 * (array_size_t_product a.shape / last * apply_padding last 8) }
      { array := some h.next, shape := a.shape,
        padded_shape := a.shape.dropLast ++ [apply_padding last 8] }
      h.next last rfl hl hpos]
  simp only []
  rw [hprodb]
  rw [flatMap_range_chunk
    (fun i j => mem2 (h.next + i * apply_padding last 8 + j)) last
    (array_size_t_product a.shape / last)]
  rw [flatMap_range_chunk
    (fun i j => h.mem (ab + i * apply_padding last 8 + j)) last
    (array_size_t_product a.shape / last)]
  rw [flatMap_range_chunk
    (fun i j => h.mem (rb + i * apply_padding last 8 + j)) last
    (array_size_t_product a.shape / last)]
  refine ⟨_, _, _, rfl, rfl, rfl, by simp, by simp, ?_⟩
  intro k hk
  rw [List.length_map, List.length_range] at hk
  rw [getD_map_range _ _ _ hk, getD_map_range _ _ _ hk, getD_map_range _ _ _ hk]
  have hdb : k / last < array_size_t_product a.shape / last := by
    rw [Nat.div_lt_iff_lt_mul hpos]
    omega
  have hmb : k % last < last := Nat.mod_lt _ hpos
  rw [hlog (k / last) (k % last) hdb hmb]
  have h2 : ab + (k / last * apply_padding last 8 + k % last) =
      ab + k / last * apply_padding last 8 + k % last := by omega
  have h3 : rb + (k / last * apply_padding last 8 + k % last) =
      rb + k / last * apply_padding last 8 + k % last := by omega
  rw [h2, h3]

/-- C6. For every pair of populated (well-formed) tensors of identical shape,
add_tensor succeeds and its data is the pointwise sum of the operands' data;
multiply_tensor likewise yields the pointwise product and divide_tensor the
pointwise quotient, divide_tensor succeeding for any operand values (so
division by zero cannot raise an error). -/
theorem C6_elementwise_identity {α : Type} [Add α] [Mul α] [Div α] :
    ∀ (h : Heap α) (a b : PipevecTensorPriv) (d : α),
      WellFormed h a → WellFormed h b → a.shape = b.shape →
      (∃ h' c, pipevec_tensor_add_tensor h a b = .ok (h', c) ∧ c.shape = a.shape ∧
        ∃ la lb lc, pipevec_tensor_get_data h a = some la ∧
          pipevec_tensor_get_data h b = some lb ∧
          pipevec_tensor_get_data h' c = some lc ∧
          lc.length = la.length ∧ lb.length = la.length ∧
          ∀ k, k < la.length → lc.getD k d = la.getD k d + lb.getD k d) ∧
      (∃ h' c, pipevec_tensor_multiply_tensor h a b = .ok (h', c) ∧ c.shape = a.shape ∧
        ∃ la lb lc, pipevec_tensor_get_data h a = some la ∧
          pipevec_tensor_get_data h b = some lb ∧
          pipevec_tensor_get_data h' c = some lc ∧
          lc.length = la.length ∧ lb.length = la.length ∧
          ∀ k, k < la.length → lc.getD k d = la.getD k d * lb.getD k d) ∧
      (∃ h' c, pipevec_tensor_divide_tensor h a b = .ok (h', c) ∧ c.shape = a.shape ∧
        ∃ la lb lc, pipevec_tensor_get_data h a = some la ∧
          pipevec_tensor_get_data h b = some lb ∧
          pipevec_tensor_get_data h' c = some lc ∧
          lc.length = la.length ∧ lb.length = la.length ∧
          ∀ k, k < la.length → lc.getD k d = la.getD k d / lb.getD k d) := by
  intro h a b d hwa hwb hsh
  exact ⟨elementwise_correct h a b add d hwa hwb hsh,
    elementwise_correct h a b mul d hwa hwb hsh,
    elementwise_correct h a b divide d hwa hwb hsh⟩

/-- C6 witness: the universal statement applied to two concrete well-formed
one-element tensors. -/
theorem C6_elementwise_identity_witness :
    (∃ h' c, pipevec_tensor_add_tensor ({ mem := fun _ => (0 : Int), next := 128 } : Heap Int)
        { array := some 0, shape := [1], padded_shape := [8] }
        { array := some 64, shape := [1], padded_shape := [8] } = .ok (h', c) ∧
      c.shape = [1] ∧
      ∃ la lb lc, pipevec_tensor_get_data { mem := fun _ => (0 : Int), next := 128 }
          { array := some 0, shape := [1], padded_shape := [8] } = some la ∧
        pipevec_tensor_get_data { mem := fun _ => (0 : Int), next := 128 }
          { array := some 64, shape := [1], padded_shape := [8] } = some lb ∧
        pipevec_tensor_get_data h' c = some lc ∧
        lc.length = la.length ∧ lb.length = la.length ∧
        ∀ k, k < la.length → lc.getD k (0 : Int) = la.getD k 0 + lb.getD k 0) ∧
    (∃ h' c, pipevec_tensor_multiply_tensor ({ mem := fun _ => (0 : Int), next := 128 } : Heap Int)
        { array := some 0, shape := [1], padded_shape := [8] }
        { array := some 64, shape := [1], padded_shape := [8] } = .ok (h', c) ∧
      c.shape = [1] ∧
      ∃ la lb lc, pipevec_tensor_get_data { mem := fun _ => (0 : Int), next := 128 }
          { array := some 0, shape := [1], padded_shape := [8] } = some la ∧
        pipevec_tensor_get_data { mem := fun _ => (0 : Int), next := 128 }
          { array := some 64, shape := [1], padded_shape := [8] } = some lb ∧
        pipevec_tensor_get_data h' c = some lc ∧
        lc.length = la.length ∧ lb.length = la.length ∧
        ∀ k, k < la.length → lc.getD k (0 : Int) = la.getD k 0 * lb.getD k 0) ∧
    (∃ h' c, pipevec_tensor_divide_tensor ({ mem := fun _ => (0 : Int), next := 128 } : Heap Int)
        { array := some 0, shape := [1], padded_shape := [8] }
        { array := some 64, shape := [1], padded_shape := [8] } = .ok (h', c) ∧
      c.shape = [1] ∧
      ∃ la lb lc, pipevec_tensor_get_data { mem := fun _ => (0 : Int), next := 128 }
          { array := some 0, shape := [1], padded_shape := [8] } = some la ∧
        pipevec_tensor_get_data { mem := fun _ => (0 : Int), next := 128 }
          { array := some 64, shape := [1], padded_shape := [8] } = some lb ∧
        pipevec_tensor_get_data h' c = some lc ∧
        lc.length = la.length ∧ lb.length = la.length ∧
        ∀ k, k < la.length → lc.getD k (0 : Int) = la.getD k 0 / lb.getD k 0) :=
  C6_elementwise_identity { mem := fun _ => (0 : Int), next := 128 }
    { array := some 0, shape := [1], padded_shape := [8] }
    { array := some 64, shape := [1], padded_shape := [8] } 0
    ⟨0, 1, rfl, by decide, by decide, by decide, by decide⟩
    ⟨64, 1, rfl, by decide, by decide, by decide, by decide⟩
    rfl

/-- HeapExtends is transitive. -/
theorem heap_extends_trans {α : Type} {h1 h2 h3 : Heap α}
    (e1 : HeapExtends h1 h2) (e2 : HeapExtends h2 h3) : HeapExtends h1 h3 :=
  ⟨Nat.le_trans e1.1 e2.1,
   fun p hp => (e2.2 p (Nat.lt_of_lt_of_le hp e1.1)).trans (e1.2 p hp)⟩

/-- A successful set_data only allocates fresh cells: the allocator frontier
moves forward and every cell below the old frontier keeps its value. -/
theorem set_data_extends {α : Type} [Zero α] {h : Heap α} {c : List α}
    {s : List Nat} {h' : Heap α} {t' : PipevecTensorPriv}
    (heq : pipevec_tensor_set_data h c s = .ok (h', t')) : HeapExtends h h' := by
  obtain ⟨hlen, last, hl, hpos⟩ := set_data_inv heq
  obtain ⟨mem1, heq2, hmem⟩ := set_data_char h c s last hl hpos hlen
  rw [heq] at heq2
  simp only [CResult.ok.injEq, Prod.mk.injEq] at heq2
  obtain ⟨hh, _⟩ := heq2
  subst hh
  refine ⟨Nat.le_add_right _ _, ?_⟩
  intro p hp
  show mem1 p = h.mem p
  rw [hmem p, if_neg (by omega)]

/-- A successful copy touches no cell below the old frontier. -/
theorem copy_extends {α : Type} {h : Heap α} {t : PipevecTensorPriv}
    {h' : Heap α} {t' : PipevecTensorPriv}
    (heq : pipevec_tensor_copy h t = .ok (h', t')) : HeapExtends h h' := by
  obtain ⟨src, last, ha, hl, hpos, ht', hh'⟩ := copy_inv heq
  subst hh'
  refine ⟨Nat.le_add_right _ _, ?_⟩
  intro p hp
  exact memcpy_frame h.mem h.next src _ p hp

/-- A successful map touches no cell below the old frontier. -/
theorem map_extends {α : Type} {h : Heap α} {t : PipevecTensorPriv}
    {func : α → List Nat → α} {h' : Heap α} {t' : PipevecTensorPriv}
    (heq : pipevec_tensor_map h t func = .ok (h', t')) : HeapExtends h h' := by
  unfold pipevec_tensor_map at heq
  cases hcopy : pipevec_tensor_copy h t with
  | ub => rw [hcopy] at heq; exact absurd heq (by simp)
  | error e m => rw [hcopy] at heq; exact absurd heq (by simp)
  | ok pr =>
    obtain ⟨h1, dst⟩ := pr
    rw [hcopy] at heq
    simp only [] at heq
    obtain ⟨src, last, harr, hl, hpos, hdst, hh1⟩ := copy_inv hcopy
    subst hdst
    subst hh1
    simp only [] at heq
    rw [hl, List.getLast?_concat] at heq
    simp only [] at heq
    rw [if_neg (by omega)] at heq
    simp only [CResult.ok.injEq, Prod.mk.injEq] at heq
    obtain ⟨hh, _⟩ := heq
    subst hh
    refine ⟨Nat.le_add_right _ _, ?_⟩
    intro p hp
    refine Eq.trans (foldl_store_frame _ h.next ?_ _ _ p hp)
      (memcpy_frame h.mem h.next src _ p hp)
    intro m i q hq
    refine Eq.trans (foldl_store_frame _ h.next ?_ _ _ q hq) rfl
    intro m2 j r hr
    exact store_ne _ _ _ (by omega)

/-- A successful elementwise operation touches no cell below the old
frontier. -/
theorem elementwise_extends {α : Type} {h : Heap α} {lhs rhs : PipevecTensorPriv}
    {func : α → α → α} {h' : Heap α} {t' : PipevecTensorPriv}
    (heq : pipevec_tensor_do_elementwise_op h lhs rhs func = .ok (h', t')) :
    HeapExtends h h' := by
  unfold pipevec_tensor_do_elementwise_op at heq
  by_cases hsh : shapes_equal lhs.shape rhs.shape
  · rw [if_neg (by simp [hsh])] at heq
    cases hcopy : pipevec_tensor_copy h lhs with
    | ub => rw [hcopy] at heq; exact absurd heq (by simp)
    | error e m => rw [hcopy] at heq; exact absurd heq (by simp)
    | ok pr =>
      obtain ⟨h1, dst⟩ := pr
      rw [hcopy] at heq
      simp only [] at heq
      obtain ⟨src, last, harr, hl, hpos, hdst, hh1⟩ := copy_inv hcopy
      subst hdst
      subst hh1
      simp only [] at heq
      cases hrarr : rhs.array with
      | none => rw [harr, hrarr, hl] at heq; simp at heq
      | some rsrc =>
        cases hpl : lhs.padded_shape.getLast? with
        | none => rw [harr, hrarr, hl, hpl] at heq; simp at heq
        | some plast =>
        rw [harr, hrarr, hl, hpl] at heq
        simp only [] at heq
        rw [if_neg (by omega)] at heq
        simp only [CResult.ok.injEq, Prod.mk.injEq] at heq
        obtain ⟨hh, _⟩ := heq
        subst hh
        refine ⟨Nat.le_add_right _ _, ?_⟩
        intro p hp
        refine Eq.trans (foldl_store_frame _ h.next ?_ _ _ p hp)
          (memcpy_frame h.mem h.next src _ p hp)
        intro m i q hq
        refine Eq.trans (foldl_store_frame _ h.next ?_ _ _ q hq) rfl
        intro m2 j r hr
        exact store_ne _ _ _ (by omega)
  · rw [if_pos (by simp [hsh])] at heq
    exact absurd heq (by simp)

/-- A successful scalar operation touches no cell below the old frontier. -/
theorem scalar_extends {α : Type} {h : Heap α} {lhs : PipevecTensorPriv} {x : α}
    {func : α → α → α} {h' : Heap α} {t' : PipevecTensorPriv}
    (heq : pipevec_tensor_do_scalar_op h lhs x func = .ok (h', t')) :
    HeapExtends h h' := by
  unfold pipevec_tensor_do_scalar_op at heq
  cases hcopy : pipevec_tensor_copy h lhs with
  | ub => rw [hcopy] at heq; exact absurd heq (by simp)
  | error e m => rw [hcopy] at heq; exact absurd heq (by simp)
  | ok pr =>
    obtain ⟨h1, dst⟩ := pr
    rw [hcopy] at heq
    simp only [] at heq
    obtain ⟨src, last, harr, hl, hpos, hdst, hh1⟩ := copy_inv hcopy
    subst hdst
    subst hh1
    simp only [] at heq
    cases hpl : lhs.padded_shape.getLast? with
    | none => rw [harr, hl, hpl] at heq; simp at heq
    | some plast =>
    rw [harr, hl, hpl] at heq
    simp only [] at heq
    rw [if_neg (by omega)] at heq
    simp only [CResult.ok.injEq, Prod.mk.injEq] at heq
    obtain ⟨hh, _⟩ := heq
    subst hh
    refine ⟨Nat.le_add_right _ _, ?_⟩
    intro p hp
    refine Eq.trans (foldl_store_frame _ h.next ?_ _ _ p hp)
      (memcpy_frame h.mem h.next src _ p hp)
    intro m i q hq
    refine Eq.trans (foldl_store_frame _ h.next ?_ _ _ q hq) rfl
    intro m2 j r hr
    exact store_ne _ _ _ (by omega)

/-- A successful inner product touches no cell below the old frontier. -/
theorem inner_extends {α : Type} [Zero α] [Add α] [Mul α] {h : Heap α}
    {lhs rhs : PipevecTensorPriv} {h' : Heap α} {t' : PipevecTensorPriv}
    (heq : pipevec_tensor_inner_product_tensor h lhs rhs = .ok (h', t')) :
    HeapExtends h h' := by
  unfold pipevec_tensor_inner_product_tensor at heq
  by_cases hsub : shape_subset_equal lhs.shape rhs.shape 2
  · rw [if_neg (by simp [hsub])] at heq
    by_cases hdim : lhs.shape.getD (lhs.shape.length - 1) 0 =
        rhs.shape.getD (rhs.shape.length - 2) 0
    · rw [if_neg (by exact fun hn => hn hdim)] at heq
      simp only [] at heq
      cases halloc : pipevec_tensor_alloc_shape h
          (inner_product_new_shape lhs.shape rhs.shape) with
      | none => rw [halloc] at heq; exact absurd heq (by simp)
      | some pr =>
        obtain ⟨h1, nt⟩ := pr
        rw [halloc] at heq
        simp only [] at heq
        obtain ⟨last, hl, hpos, hh1, hnt⟩ := alloc_shape_inv halloc
        subst hnt
        subst hh1
        simp only [] at heq
        cases hla : lhs.array with
        | none => rw [hla] at heq; simp at heq
        | some lb =>
          cases hra : rhs.array with
          | none => rw [hla, hra] at heq; simp at heq
          | some rb =>
            rw [hla, hra] at heq
            simp only [] at heq
            simp only [CResult.ok.injEq, Prod.mk.injEq] at heq
            obtain ⟨hh, _⟩ := heq
            subst hh
            refine ⟨Nat.le_add_right _ _, ?_⟩
            intro p hp
            refine Eq.trans (foldl_store_frame _ h.next ?_ _ _ p hp) rfl
            intro m b q hq
            refine Eq.trans (foldl_store_frame _ h.next ?_ _ _ q hq) rfl
            intro m2 i r hr
            refine Eq.trans (foldl_store_frame _ h.next ?_ _ _ r hr) rfl
            intro m3 j u hu
            refine Eq.trans (foldl_store_frame _ h.next ?_ _ _ u hu)
              (store_ne _ _ _ (by omega))
            intro m4 k w hw
            exact store_ne _ _ _ (by omega)
    · rw [if_pos hdim] at heq
      exact absurd heq (by simp)
  · rw [if_pos (by simp [hsub])] at heq
    exact absurd heq (by simp)

/-- get_data of a well-formed tensor only reads cells below the allocator
frontier, so it is unchanged by any heap extension. -/
theorem get_data_frame {α : Type} {h h' : Heap α} {t : PipevecTensorPriv}
    (hwf : WellFormed h t) (hext : HeapExtends h h') :
    pipevec_tensor_get_data h' t = pipevec_tensor_get_data h t := by
  obtain ⟨base, last, ha, hl, hpos, hpad, hbound⟩ := hwf
  rw [get_data_char h t base last ha hl hpos,
    get_data_char h' t base last ha hl hpos]
  refine congrArg some ?_
  rw [flatMap_range_chunk (fun i j => h'.mem (base + i * apply_padding last 8 + j))
      last (array_size_t_product t.shape / last),
    flatMap_range_chunk (fun i j => h.mem (base + i * apply_padding last 8 + j))
      last (array_size_t_product t.shape / last)]
  apply List.map_congr_left
  intro k hk
  rw [List.mem_range] at hk
  apply hext.2
  have hdb : k / last < array_size_t_product t.shape / last := by
    rw [Nat.div_lt_iff_lt_mul hpos]
    omega
  have hmb : k % last < last := Nat.mod_lt _ hpos
  have hwle : last ≤ apply_padding last 8 := apply_padding_le last
  have hmul : (k / last + 1) * apply_padding last 8 ≤
      array_size_t_product t.shape / last * apply_padding last 8 :=
    Nat.mul_le_mul_right _ (by omega)
  rw [Nat.add_mul, Nat.one_mul] at hmul
  omega

/-- C9. No producing operation changes the observable contents of any tensor
that is well formed beforehand: a successful copy, map, elementwise
operation, scalar operation or inner product leaves get_data of every such
tensor unchanged (the descriptor records, including the shape, are values and
are never mutated); in particular, populating the result of copy(t) through
set_data leaves get_data(t) unchanged. -/
theorem C9_operand_preservation {α : Type} [Zero α] [Add α] [Mul α] :
    ∀ (h : Heap α) (t : PipevecTensorPriv), WellFormed h t →
      (∀ (a : PipevecTensorPriv) (h' : Heap α) (c : PipevecTensorPriv),
        pipevec_tensor_copy h a = .ok (h', c) →
        pipevec_tensor_get_data h' t = pipevec_tensor_get_data h t) ∧
      (∀ (a : PipevecTensorPriv) (f : α → List Nat → α) (h' : Heap α)
          (c : PipevecTensorPriv),
        pipevec_tensor_map h a f = .ok (h', c) →
        pipevec_tensor_get_data h' t = pipevec_tensor_get_data h t) ∧
      (∀ (a b : PipevecTensorPriv) (f : α → α → α) (h' : Heap α)
          (c : PipevecTensorPriv),
        pipevec_tensor_do_elementwise_op h a b f = .ok (h', c) →
        pipevec_tensor_get_data h' t = pipevec_tensor_get_data h t) ∧
      (∀ (a : PipevecTensorPriv) (x : α) (f : α → α → α) (h' : Heap α)
          (c : PipevecTensorPriv),
        pipevec_tensor_do_scalar_op h a x f = .ok (h', c) →
        pipevec_tensor_get_data h' t = pipevec_tensor_get_data h t) ∧
      (∀ (a b : PipevecTensorPriv) (h' : Heap α) (c : PipevecTensorPriv),
        pipevec_tensor_inner_product_tensor h a b = .ok (h', c) →
        pipevec_tensor_get_data h' t = pipevec_tensor_get_data h t) ∧
      (∀ (h1 : Heap α) (c : PipevecTensorPriv) (contents : List α)
          (shape : List Nat) (h2 : Heap α) (c2 : PipevecTensorPriv),
        pipevec_tensor_copy h t = .ok (h1, c) →
        pipevec_tensor_set_data h1 contents shape = .ok (h2, c2) →
        pipevec_tensor_get_data h1 t = pipevec_tensor_get_data h t ∧
        pipevec_tensor_get_data h2 t = pipevec_tensor_get_data h t) := by
  intro h t hwf
  refine ⟨?_, ?_, ?_, ?_, ?_, ?_⟩
  · intro a h' c heq
    exact get_data_frame hwf (copy_extends heq)
  · intro a f h' c heq
    exact get_data_frame hwf (map_extends heq)
  · intro a b f h' c heq
    exact get_data_frame hwf (elementwise_extends heq)
  · intro a x f h' c heq
    exact get_data_frame hwf (scalar_extends heq)
  · intro a b h' c heq
    exact get_data_frame hwf (inner_extends heq)
  · intro h1 c contents shape h2 c2 hc hs
    have e1 := copy_extends hc
    have e2 := set_data_extends hs
    exact ⟨get_data_frame hwf e1, get_data_frame hwf (heap_extends_trans e1 e2)⟩

/-- C9 witness: copying a concrete well-formed tensor and then populating the
copy through set_data leaves get_data of the original unchanged. -/
theorem C9_operand_preservation_witness :
    ∃ h1 c, pipevec_tensor_copy ({ mem := fun _ => (0 : Int), next := 64 } : Heap Int)
        { array := some 0, shape := [3], padded_shape := [8] } = .ok (h1, c) ∧
      ∃ h2 c2, pipevec_tensor_set_data h1 [(5 : Int)] [1] = .ok (h2, c2) ∧
        pipevec_tensor_get_data h1 { array := some 0, shape := [3], padded_shape := [8] } =
          pipevec_tensor_get_data { mem := fun _ => (0 : Int), next := 64 }
            { array := some 0, shape := [3], padded_shape := [8] } ∧
        pipevec_tensor_get_data h2 { array := some 0, shape := [3], padded_shape := [8] } =
          pipevec_tensor_get_data { mem := fun _ => (0 : Int), next := 64 }
            { array := some 0, shape := [3], padded_shape := [8] } := by
  refine ⟨_, _, rfl, _, _, rfl, ?_⟩
  exact (C9_operand_preservation { mem := fun _ => (0 : Int), next := 64 }
    { array := some 0, shape := [3], padded_shape := [8] }
    ⟨0, 3, rfl, by decide, by decide, by decide, by decide⟩).2.2.2.2.2
    _ _ [(5 : Int)] [1] _ _ rfl rfl

end Pipevec
